import Mathlib

/-!
# librouteros, `src/main.c`: a shallow embedding

Conventions of the embedding.

* A byte is a natural number below 256; a store into a `char` reduces the
  stored value modulo 256.
* A `const char *` argument is the list of bytes found in memory from the
  pointer on.  The C string it denotes ends before the first zero byte (or at
  the end of the list, where the terminator is implicit); `NULL` is `none`.
* Pointers that every caller takes from its own local variables
  (`ret_buffer`, `ret_buffer_size`, the receive `buffer`, the connection) are
  not `NULL`; `command` and `args[i]` may be.
* `size_t` values are natural numbers (an in-memory string is far shorter than
  `2^64 - 5`, so the additions on lengths never wrap); `int` values are 32-bit
  two's complement patterns, kept as naturals below `2^32`.  Whether `char` is
  signed is a parameter of the functions whose result depends on it.
* The stream is a script: the list of the answers the operating system gives
  to the successive `write` calls, and to the successive `read` calls.
* `receive_reply` is embedded over the results of its successive `read_word`
  calls (return code and delivered word); `read_word` itself is embedded over
  the byte stream.
* `malloc`, `realloc` and `strdup` succeed.
* Return codes are integers; the `errno` constants have their Linux values.
* The functions of the C library that the code calls (`strlen`, `strchr`,
  `strcmp`, `strdup`, `memcpy`, `snprintf`, `strtoul`) are given by their C
  semantics; the digest of libgcrypt is a parameter `md5` of the login
  functions.  What the library prints is not modelled.
-/

namespace Librouteros

/-! ## Constants of `errno.h` -/

/-- Invalid argument. -/
def EINVAL : Int := 22
/-- Out of memory; used by the library for "does not fit the buffer". -/
def ENOMEM : Int := 12
/-- Protocol error. -/
def EPROTO : Int := 71
/-- Resource temporarily unavailable: the call is to be retried. -/
def EAGAIN : Int := 11

/-! ## C strings and raw memory -/

/-- The bytes of the C string that starts at the pointer: everything before the
first zero byte.  This is also what `strdup` returns. -/
def strdup (s : List Nat) : List Nat := s.takeWhile (fun b => b != 0)

/-- C `strlen`: the number of bytes before the first zero byte. -/
def strlen (s : List Nat) : Nat := (strdup s).length

/-- C `strchr (s, c)` for a non-zero `c`: the offset of the first occurrence of
`c` in the C string at `s`, or `none` (the `NULL` result) when the terminator
comes first. -/
def strchr : List Nat → Nat → Option Nat
  | [], _ => none
  | x :: xs, c =>
    if x = c then some 0
    else if x = 0 then none
    else (strchr xs c).map (fun i => i + 1)

/-- A store of the value `v` into the `char` at index `i` of an array. -/
def store (mem : List Nat) (i v : Nat) : List Nat := mem.set i (v % 256)

/-- The (unsigned) value of the byte at index `i` of an array. -/
def load (mem : List Nat) (i : Nat) : Nat := mem.getD i 0

/-- C `memcpy (mem + dst, src, |src|)`. -/
def memcpy (mem : List Nat) (dst : Nat) : List Nat → List Nat
  | [] => mem
  | x :: xs => memcpy (mem.set dst x) (dst + 1) xs

/-! ## The send buffer (`buffer_init`, `buffer_add`, `buffer_end`) -/

/-- The pair `(*ret_buffer, *ret_buffer_size)` that the buffer functions
update: `mem` is the underlying array, `pos` the offset of `*ret_buffer` in
it, `size` the value of `*ret_buffer_size`. -/
structure Buf where
  mem : List Nat
  pos : Nat
  size : Nat
deriving DecidableEq, Repr

/-- `buffer_init` (lines 216-225). -/
def buffer_init (b : Buf) : Int :=
  if b.size < 1 then EINVAL else 0

/-- `buffer_add` (lines 227-312): status and the updated buffer.  The
assertion of line 303 follows from the check of line 256 and is not
modelled. -/
def buffer_add (b : Buf) (string : Option (List Nat)) : Int × Buf :=
  match string with
  | none => (EINVAL, b)
  | some s =>
    let string_size := strlen s
    if string_size = 0 then (EINVAL, b)
    else
      let req_size :=
        if string_size ≥ 0x10000000 then 5 + string_size
        else if string_size ≥ 0x200000 then 4 + string_size
        else if string_size ≥ 0x4000 then 3 + string_size
        else if string_size ≥ 0x80 then 2 + string_size
        else 1 + string_size
      if b.size < req_size then (ENOMEM, b)
      else
        let hdr : Buf :=
          if string_size ≥ 0x10000000 then
            let m := store b.mem b.pos 0xF0
            let m := store m (b.pos + 1) ((string_size >>> 24) &&& 0xff)
            let m := store m (b.pos + 2) ((string_size >>> 16) &&& 0xff)
            let m := store m (b.pos + 3) ((string_size >>> 8) &&& 0xff)
            let m := store m (b.pos + 4) (string_size &&& 0xff)
            ⟨m, b.pos + 5, b.size - 5⟩
          else if string_size ≥ 0x200000 then
            let m := store b.mem b.pos ((string_size >>> 24) &&& 0x1f)
            let m := store m b.pos (load m b.pos ||| 0xE0)
            let m := store m (b.pos + 1) ((string_size >>> 16) &&& 0xff)
            let m := store m (b.pos + 2) ((string_size >>> 8) &&& 0xff)
            let m := store m (b.pos + 3) (string_size &&& 0xff)
            ⟨m, b.pos + 4, b.size - 4⟩
          else if string_size ≥ 0x4000 then
            let m := store b.mem b.pos ((string_size >>> 16) &&& 0x3f)
            let m := store m b.pos (load m b.pos ||| 0xC0)
            let m := store m (b.pos + 1) ((string_size >>> 8) &&& 0xff)
            let m := store m (b.pos + 2) (string_size &&& 0xff)
            ⟨m, b.pos + 3, b.size - 3⟩
          else if string_size ≥ 0x80 then
            let m := store b.mem b.pos ((string_size >>> 8) &&& 0x7f)
            let m := store m b.pos (load m b.pos ||| 0x80)
            let m := store m (b.pos + 1) (string_size &&& 0xff)
            ⟨m, b.pos + 2, b.size - 2⟩
          else
            let m := store b.mem b.pos string_size
            ⟨m, b.pos + 1, b.size - 1⟩
        let m := memcpy hdr.mem hdr.pos (s.take string_size)
        (0, ⟨m, hdr.pos + string_size, hdr.size - string_size⟩)

/-- `buffer_end` (lines 314-328): appends the empty word. -/
def buffer_end (b : Buf) : Int × Buf :=
  if b.size < 1 then (EINVAL, b)
  else (0, ⟨store b.mem b.pos 0, b.pos + 1, b.size - 1⟩)

/-- The bytes `buffer_add` puts on the wire for a string: what it writes into
an empty buffer that is large enough for any size field. -/
def encode (s : List Nat) : List Nat :=
  let r := buffer_add ⟨List.replicate (strlen s + 5) 0, 0, strlen s + 5⟩ (some s)
  r.2.mem.take r.2.pos

/-! ## Sending a sentence (`send_command`) -/

/-- One answer of the operating system to a `write` call on the stream:
either it takes up to `k` of the offered bytes (a short write when `k` is
smaller than the request) or it returns -1 with the given `errno`. -/
inductive WriteEvent
  | accept (k : Nat)
  | fail (errno : Int)
deriving DecidableEq, Repr

/-- How a call ends: it returns a value, the process is killed (a failed
assertion or a null-pointer dereference), or the call never returns. -/
inductive Exec (α : Type)
  | returns (a : α)
  | crash
  | blocks
deriving DecidableEq, Repr

/-- Result of `send_command`: the return code, the bytes this call has
written to the stream in order, and the answers of the stream not yet used. -/
structure SendRes where
  status : Int
  wire : List Nat
  rest : List WriteEvent
deriving DecidableEq, Repr

/-- The write loop of `send_command` (lines 371-388).  `pending` are the
bytes from `buffer_ptr` on, `buffer_size` of them.  When the stream gives no
further answer the `write` call blocks for ever. -/
def write_loop : List WriteEvent → List Nat → List Nat → Exec SendRes
  | ws, [], wire => .returns ⟨0, wire, ws⟩
  | [], _ :: _, _ => .blocks
  | .accept k :: ws, p :: ps, wire =>
    write_loop ws ((p :: ps).drop k) (wire ++ (p :: ps).take k)
  | .fail e :: ws, p :: ps, wire =>
    if e = EAGAIN then write_loop ws (p :: ps) wire
    else .returns ⟨e, wire, ws⟩

/-- The argument loop of `send_command` (lines 355-363). -/
def add_args (b : Buf) : List (Option (List Nat)) → Int × Buf
  | [] => (0, b)
  | none :: _ => (EINVAL, b)
  | some s :: rest =>
    let r := buffer_add b (some s)
    if r.1 ≠ 0 then r else add_args r.2 rest

/-- `send_command` (lines 330-391).  `args_num` is the length of `args`. -/
def send_command (command : Option (List Nat)) (args : List (Option (List Nat)))
    (ws : List WriteEvent) : Exec SendRes :=
  let b0 : Buf := ⟨List.replicate 4096 0, 0, 4096⟩
  if buffer_init b0 ≠ 0 then .returns ⟨buffer_init b0, [], ws⟩
  else
    let r1 := buffer_add b0 command
    if r1.1 ≠ 0 then .returns ⟨r1.1, [], ws⟩
    else
      let r2 := add_args r1.2 args
      if r2.1 ≠ 0 then .returns ⟨r2.1, [], ws⟩
      else
        let r3 := buffer_end r2.2
        if r3.1 ≠ 0 then .returns ⟨r3.1, [], ws⟩
        else write_loop ws (r3.2.mem.take (4096 - r3.2.size)) []

/-! ## Reading a word (`read_exact`, `read_word`) -/

/-- One answer of the operating system to a `read` call: bytes that have
arrived (the call returns as many of them as were asked for, the others stay
queued), or -1 with the given `errno`. -/
inductive ReadEvent
  | data (bs : List Nat)
  | fail (errno : Int)
deriving DecidableEq, Repr

/-- `read (fd, ptr, want)`: return value, `errno`, the bytes stored at `ptr`
and the remaining stream.  A stream with no event left is at end-of-file:
`read` returns 0. -/
def sys_read (s : List ReadEvent) (want : Nat) : Int × Int × List Nat × List ReadEvent :=
  match s with
  | [] => (0, 0, [], [])
  | .data bs :: rest =>
    if bs.length ≤ want then (bs.length, 0, bs, rest)
    else (want, 0, bs.take want, .data (bs.drop want) :: rest)
  | .fail e :: rest => (-1, e, [], rest)

/-- Result of `read_exact`: the return code, the bytes stored into the buffer
(from its start, `have_bytes` of them) and the remaining stream. -/
structure ReadRes where
  status : Int
  bytes : List Nat
  rest : List ReadEvent
deriving DecidableEq, Repr

/-- The loop of `read_exact` (lines 97-116); `got` holds the `have_bytes`
bytes stored so far.  `fuel` bounds the number of iterations; `none` means the
loop is still running when the fuel is used up. -/
def read_exact_loop : Nat → List ReadEvent → List Nat → Nat → Option ReadRes
  | 0, s, got, buffer_size =>
    if got.length < buffer_size then none else some ⟨0, got, s⟩
  | fuel + 1, s, got, buffer_size =>
    if got.length < buffer_size then
      let want_bytes := buffer_size - got.length
      match sys_read s want_bytes with
      | (status, errno, bs, s1) =>
        if status < 0 then
          if errno = EAGAIN then read_exact_loop fuel s1 got buffer_size
          else some ⟨status, got, s1⟩
        else read_exact_loop fuel s1 (got ++ bs) buffer_size
    else some ⟨0, got, s⟩

/-- `read_exact` (lines 84-119).  The buffer pointer is never `NULL` in the
callers. -/
def read_exact (fuel : Nat) (fd : Int) (s : List ReadEvent) (buffer_size : Nat) :
    Option ReadRes :=
  if fd < 0 then some ⟨EINVAL, [], s⟩
  else if buffer_size = 0 then some ⟨0, [], s⟩
  else read_exact_loop fuel s [] buffer_size

/-- Integer promotion of a `char` holding the byte `b`, as a 32-bit two's
complement pattern: sign extension where `char` is signed. -/
def char_to_int (char_signed : Bool) (b : Nat) : Nat :=
  if char_signed && decide (b ≥ 128) then b + 0xFFFFFF00 else b

/-- The C expression `v << k` on `int`, wrapping to 32 bits. -/
def shl (v k : Nat) : Nat := (v <<< k) % 2 ^ 32

/-- Conversion of an `int` pattern to the 64-bit `size_t` (sign extension). -/
def int_to_size_t (v : Nat) : Nat :=
  if v ≥ 2 ^ 31 then v + (2 ^ 64 - 2 ^ 32) else v

/-- Result of the size computation of `read_word`. -/
structure SizeRes where
  status : Int
  req_size : Nat
  rest : List ReadEvent
deriving DecidableEq, Repr

/-- The first part of `read_word` (lines 403-458): reads the size field into
the local array `word_length` and computes `req_size`.  `buffer` is the
caller's buffer as it is on entry. -/
def read_word_size (char_signed : Bool) (fuel : Nat) (fd : Int) (s : List ReadEvent)
    (buffer : List Nat) : Option SizeRes :=
  match read_exact fuel fd s 1 with
  | none => none
  | some r0 =>
    if r0.status ≠ 0 then some ⟨r0.status, 0, r0.rest⟩
    else
      let word_length0 := r0.bytes.getD 0 0
      let buf := fun i => char_to_int char_signed (load buffer i)
      if load buffer 0 = 0xF0 then
        match read_exact fuel fd r0.rest 4 with
        | none => none
        | some r1 =>
          if r1.status ≠ 0 then some ⟨r1.status, 0, r1.rest⟩
          else some ⟨0, int_to_size_t
            (((shl (buf 1) 24 ||| shl (buf 2) 16) ||| shl (buf 3) 8) ||| buf 4), r1.rest⟩
      else if buf 0 &&& 0xE0 = 0xE0 then
        match read_exact fuel fd r0.rest 3 with
        | none => none
        | some r1 =>
          if r1.status ≠ 0 then some ⟨r1.status, 0, r1.rest⟩
          else some ⟨0, int_to_size_t
            (((shl (buf 0 &&& 0x1F) 24 ||| shl (buf 1) 16) ||| shl (buf 2) 8) ||| buf 3),
            r1.rest⟩
      else if buf 0 &&& 0xC0 = 0xC0 then
        match read_exact fuel fd r0.rest 2 with
        | none => none
        | some r1 =>
          if r1.status ≠ 0 then some ⟨r1.status, 0, r1.rest⟩
          else some ⟨0, int_to_size_t
            ((shl (buf 0 &&& 0x3F) 16 ||| shl (buf 1) 8) ||| buf 2), r1.rest⟩
      else if buf 0 &&& 0x80 = 0x80 then
        match read_exact fuel fd r0.rest 1 with
        | none => none
        | some r1 =>
          if r1.status ≠ 0 then some ⟨r1.status, 0, r1.rest⟩
          else some ⟨0, int_to_size_t (shl (buf 0 &&& 0x7F) 8 ||| buf 1), r1.rest⟩
      else if buf 0 &&& 0x80 = 0 then some ⟨0, word_length0, r0.rest⟩
      else some ⟨EPROTO, 0, r0.rest⟩

/-- Result of `read_word`: the return code, the caller's buffer and
`*buffer_size` after the call, and the remaining stream. -/
structure WordRes where
  status : Int
  buffer : List Nat
  buffer_size : Nat
  rest : List ReadEvent
deriving DecidableEq, Repr

/-- `read_word` (lines 393-477). -/
def read_word (char_signed : Bool) (fuel : Nat) (fd : Int) (s : List ReadEvent)
    (buffer : List Nat) (buffer_size : Nat) : Option WordRes :=
  if buffer_size < 1 then some ⟨EINVAL, buffer, buffer_size, s⟩
  else
    match read_word_size char_signed fuel fd s buffer with
    | none => none
    | some r =>
      if r.status ≠ 0 then some ⟨r.status, buffer, buffer_size, r.rest⟩
      else if buffer_size < r.req_size then some ⟨ENOMEM, buffer, buffer_size, r.rest⟩
      else if r.req_size = 0 then some ⟨0, store buffer 0 0, 0, r.rest⟩
      else
        match read_exact fuel fd r.rest r.req_size with
        | none => none
        | some rd =>
          if rd.status ≠ 0 then
            some ⟨rd.status, memcpy buffer 0 rd.bytes, buffer_size, rd.rest⟩
          else some ⟨0, memcpy buffer 0 rd.bytes, r.req_size, rd.rest⟩

/-! ## Assembling a reply (`receive_reply`) -/

/-- A reply record, `struct mt_reply_s`: the status string and the parallel
arrays of keys and values (`params_num` is their length).  A chain of records
linked by `next` is a list, the `NULL` chain is the empty list. -/
structure mt_reply_s where
  status : List Nat
  keys : List (List Nat)
  values : List (List Nat)
deriving DecidableEq, Repr

/-- `reply_alloc` (lines 121-135): a zeroed record. -/
def reply_alloc : mt_reply_s := ⟨[], [], []⟩

/-- `reply_add_keyval` (lines 137-166) on an existing record: return code and
the record with the copied pair appended. -/
def reply_add_keyval (r : mt_reply_s) (key val : List Nat) : Int × mt_reply_s :=
  (0, { r with keys := r.keys ++ [strdup key], values := r.values ++ [strdup val] })

/-- What one call `read_word (c, buffer, &buffer_size)` of `receive_reply`
delivers: the return code and, when it is 0, the `buffer_size` bytes of the
word left at the start of the buffer. -/
structure WordRead where
  status : Int
  word : List Nat
deriving DecidableEq, Repr

/-- The loop of `receive_reply` (lines 491-555) over the results of its
successive `read_word` calls; `chain` is the list from `head` to `tail`.
Returns `status`, `head` and the results not yet asked for.  When no further
result comes the pending `read_word` never returns.  A word of 4096 bytes or
more fails the assertion of line 497; a parameter word that arrives while
`tail` is `NULL` makes `reply_add_keyval` dereference the null pointer. -/
def receive_loop : List WordRead → List mt_reply_s → Exec (Int × List mt_reply_s × List WordRead)
  | [], _ => .blocks
  | rd :: rest, chain =>
    if rd.status ≠ 0 then .returns (rd.status, chain, rest)
    else if ¬ rd.word.length < 4096 then .crash
    else
      let buffer := rd.word ++ [0]
      if rd.word.length = 0 then .returns (0, chain, rest)
      else if load buffer 0 = 33 then
        let tmp : mt_reply_s := { reply_alloc with status := strdup (buffer.drop 1) }
        receive_loop rest (chain ++ [tmp])
      else if load buffer 0 = 61 then
        let key := buffer.drop 1
        match strchr key 61 with
        | none => receive_loop rest chain
        | some i =>
          let key := key.set i 0
          let val := key.drop (i + 1)
          match chain.getLast? with
          | none => .crash
          | some tail => receive_loop rest (chain.dropLast ++ [(reply_add_keyval tail key val).2])
      else receive_loop rest chain

/-- `receive_reply` (lines 479-564): the chain returned (`[]` for `NULL`) and
the `read_word` results not yet asked for. -/
def receive_reply (reads : List WordRead) : Exec (List mt_reply_s × List WordRead) :=
  match receive_loop reads [] with
  | .returns (status, head, rest) =>
    if status ≠ 0 then .returns ([], rest) else .returns (head, rest)
  | .crash => .crash
  | .blocks => .blocks

/-- `mt_reply_num` (lines 820-830). -/
def mt_reply_num (r : List mt_reply_s) : Int := r.length

/-! ## Queries (`mt_query`) -/

/-- A connection object, `struct mt_connection_s`. -/
structure mt_connection_s where
  fd : Int
deriving DecidableEq, Repr

/-- The stream behind a connection: the answers it will give to `write`
calls, all bytes written to it so far, and what the coming `read_word` calls
will deliver. -/
structure World where
  writes : List WriteEvent
  wire : List Nat
  words : List WordRead
deriving DecidableEq, Repr

/-- Result of `mt_query`: the return code, the stream afterwards, and the
handler invocations this call has made itself, in order, each with its three
arguments (connection, chain, user data). -/
structure QueryRes (υ : Type) where
  status : Int
  world : World
  calls : List (mt_connection_s × List mt_reply_s × υ)

/-- `mt_query` (lines 786-810).  A handler gets the connection, the chain and
the user data, may use the stream, and returns a code. -/
def mt_query {υ : Type} (c : mt_connection_s) (command : Option (List Nat))
    (args : List (Option (List Nat)))
    (handler : mt_connection_s → List mt_reply_s → υ → World → Exec (Int × World))
    (user_data : υ) (w : World) : Exec (QueryRes υ) :=
  match send_command command args w.writes with
  | .crash => .crash
  | .blocks => .blocks
  | .returns sr =>
    let w1 : World := { w with writes := sr.rest, wire := w.wire ++ sr.wire }
    if sr.status ≠ 0 then .returns ⟨sr.status, w1, []⟩
    else
      match receive_reply w1.words with
      | .crash => .crash
      | .blocks => .blocks
      | .returns (r, rest) =>
        let w2 : World := { w1 with words := rest }
        if r = [] then .returns ⟨EPROTO, w2, []⟩
        else
          match handler c r user_data w2 with
          | .crash => .crash
          | .blocks => .blocks
          | .returns (status, w3) => .returns ⟨status, w3, [(c, r, user_data)]⟩

/-! ## Record accessors -/

/-- C `strcmp`: the difference of the first pair of bytes (as `unsigned char`)
in which the two C strings differ, 0 when they are equal. -/
def strcmp : List Nat → List Nat → Int
  | [], [] => 0
  | [], y :: _ => 0 - (y : Int)
  | x :: _, [] => (x : Int)
  | x :: xs, y :: ys =>
    if x ≠ y then (x : Int) - (y : Int)
    else if x = 0 then 0
    else strcmp xs ys

/-- The loop of `mt_reply_param_val_by_key` (lines 871-873): `n` iterations
are left and `i` is the loop variable. -/
def param_loop (r : mt_reply_s) (key : List Nat) : Nat → Nat → Option (List Nat)
  | 0, _ => none
  | n + 1, i =>
    if strcmp (r.keys.getD i []) key = 0 then some (r.values.getD i [])
    else param_loop r key n (i + 1)

/-- `mt_reply_param_val_by_key` (lines 863-876); `params_num` is the length of
the key array. -/
def mt_reply_param_val_by_key (r : Option mt_reply_s) (key : Option (List Nat)) :
    Option (List Nat) :=
  match r, key with
  | some r, some key => param_loop r key r.keys.length 0
  | _, _ => none

/-! ## Login (`login_handler`, `login2_handler`, `make_password_hash`) -/

/-- The user data of the login query, `struct mt_login_data_s`; `mt_connect`
makes sure that both strings exist. -/
structure mt_login_data_s where
  username : List Nat
  password : List Nat
deriving DecidableEq, Repr

/-- `login2_handler` (lines 618-628); what it prints is not modelled. -/
def login2_handler (_c : mt_connection_s) (r : List mt_reply_s)
    (_user_data : Option mt_login_data_s) (w : World) : Exec (Int × World) :=
  if r = [] then .returns (EINVAL, w) else .returns (0, w)

/-- C `snprintf (buf, size, ...)` when the formatted text is `out`: the C
string left in `buf`, at most `size - 1` bytes of `out`. -/
def snprintf (size : Nat) (out : List Nat) : List Nat := out.take (size - 1)

/-- What the conversion `%02x` prints for `v`: its lowercase hexadecimal
digits, padded with zeros on the left to two characters. -/
def fmt_02x (v : Nat) : List Nat :=
  let ds := (Nat.toDigits 16 v).map Char.toNat
  List.replicate (2 - ds.length) 48 ++ ds

/-- `hash_binary_to_hex` (lines 630-643): the 33 bytes of `hex`, the last one
the terminator.  The elements of `binary` are `uint8_t`; `tmp[2] = 0` only
rewrites the terminator that `snprintf` has put. -/
def hash_binary_to_hex (binary : List Nat) : List Nat :=
  (List.range 16).flatMap (fun i =>
    let tmp := snprintf 3 (fmt_02x (binary.getD i 0 % 256))
    [tmp.getD 0 0, tmp.getD 1 0]) ++ [0]

/-- C `isspace` in the C locale. -/
def isspace (c : Nat) : Bool := c == 32 || (decide (9 ≤ c) && decide (c ≤ 13))

/-- The value of a hexadecimal digit character, `none` for any other byte. -/
def hex_val (c : Nat) : Option Nat :=
  if 48 ≤ c ∧ c ≤ 57 then some (c - 48)
  else if 97 ≤ c ∧ c ≤ 102 then some (c - 87)
  else if 65 ≤ c ∧ c ≤ 70 then some (c - 55)
  else none

/-- The digit loop of `strtoul` in base 16: stops at the first byte that is
not a hexadecimal digit. -/
def strtoul_digits : List Nat → Nat → Nat
  | [], acc => acc
  | c :: cs, acc =>
    match hex_val c with
    | some d => strtoul_digits cs (acc * 16 + d)
    | none => acc

/-- C `strtoul (s, NULL, 16)` with a 64-bit `unsigned long`: white space, an
optional sign, an optional `0x`, then the digits; `ULONG_MAX` on overflow. -/
def strtoul16 (s : List Nat) : Nat :=
  let t := (strdup s).dropWhile isspace
  let neg := t.head? == some 45
  let t := if t.head? == some 45 || t.head? == some 43 then t.tail else t
  let t := match t with
    | 48 :: x :: d :: rest =>
      if (x == 120 || x == 88) && (hex_val d).isSome then d :: rest else t
    | _ => t
  let v := min (strtoul_digits t 0) (2 ^ 64 - 1)
  if neg then (2 ^ 64 - v) % 2 ^ 64 else v

/-- `hash_hex_to_binary` (lines 645-659): the 16 bytes of `binary`. -/
def hash_hex_to_binary (hex : List Nat) : List Nat :=
  (List.range 16).map (fun i =>
    let tmp := [hex.getD (2 * i) 0, hex.getD (2 * i + 1) 0, 0]
    strtoul16 tmp % 256)

/-- `make_password_hash` (lines 661-681): the 33 bytes of `response_hex`.
`md5` stands for the digest that libgcrypt computes (`gcry_md_read`), of which
16 bytes are copied. -/
def make_password_hash (md5 : List Nat → List Nat) (password : List Nat)
    (password_length : Nat) (challenge_hex : List Nat) : List Nat :=
  let challenge_bin := hash_hex_to_binary challenge_hex
  let data_buffer := [0] ++ password.take password_length ++ challenge_bin.take 16
  let response_bin := (md5 data_buffer).take 16
  hash_binary_to_hex response_bin

/-- The string `"ret"`. -/
def str_ret : List Nat := [114, 101, 116]

/-- The string `"/login"`. -/
def str_login : List Nat := [47, 108, 111, 103, 105, 110]

/-- The string `"=name="`. -/
def str_name : List Nat := [61, 110, 97, 109, 101, 61]

/-- The string `"=response=00"`. -/
def str_response : List Nat := [61, 114, 101, 115, 112, 111, 110, 115, 101, 61, 48, 48]

/-- What `return (mt_query (...))` hands back from a handler: the code and the
stream. -/
def query_return {υ : Type} : Exec (QueryRes υ) → Exec (Int × World)
  | .returns q => .returns (q.status, q.world)
  | .crash => .crash
  | .blocks => .blocks

/-- The two parameter words that `login_handler` builds (lines 720-728) from
the login data and the challenge `ret`. -/
def login_params (md5 : List Nat → List Nat) (login_data : mt_login_data_s)
    (ret : List Nat) : List (List Nat) :=
  let challenge_hex := strdup ret ++ [0]
  let response_hex := make_password_hash md5 login_data.password
    (strlen login_data.password) challenge_hex
  let param_name := snprintf 1024 (str_name ++ strdup login_data.username)
  let param_response := snprintf 64 (str_response ++ strdup response_hex)
  [param_name, param_response]

/-- `login_handler` (lines 683-732); what it prints is not modelled. -/
def login_handler (md5 : List Nat → List Nat) (c : mt_connection_s) (r : List mt_reply_s)
    (user_data : Option mt_login_data_s) (w : World) : Exec (Int × World) :=
  match r with
  | [] => .returns (EINVAL, w)
  | r0 :: _ =>
    match user_data with
    | none => .returns (EINVAL, w)
    | some login_data =>
      match mt_reply_param_val_by_key (some r0) (some str_ret) with
      | none => .returns (EPROTO, w)
      | some ret =>
        if strlen ret ≠ 32 then .returns (EPROTO, w)
        else
          query_return (mt_query c (some str_login)
            ((login_params md5 login_data ret).map some) login2_handler none w)

/-! ## Vocabulary of the statements -/

/-- Width in bytes of the size field for a word of length `n`, by the table of
the specification. -/
def size_width (n : Nat) : Nat :=
  if n ≤ 0x7F then 1
  else if n ≤ 0x3FFF then 2
  else if n ≤ 0x1FFFFF then 3
  else if n ≤ 0xFFFFFFF then 4
  else 5

/-- The `k` leading bits of a byte. -/
def top_bits (byte k : Nat) : Nat := byte / 2 ^ (8 - k)

/-- The bits of a byte after its `k` leading bits. -/
def low_bits (byte k : Nat) : Nat := byte % 2 ^ (8 - k)

/-- The number a list of bytes denotes, most significant byte first. -/
def big_endian (bs : List Nat) : Nat := bs.foldl (fun a x => a * 256 + x) 0

/-- The size field as `buffer_add` computes it for a string of length `n`
(lines 259-301), in closed form. -/
def size_field (n : Nat) : List Nat :=
  if n ≥ 0x10000000 then [0xF0, n / 2 ^ 24 % 256, n / 2 ^ 16 % 256, n / 2 ^ 8 % 256, n % 256]
  else if n ≥ 0x200000 then [0xE0 + n / 2 ^ 24, n / 2 ^ 16 % 256, n / 2 ^ 8 % 256, n % 256]
  else if n ≥ 0x4000 then [0xC0 + n / 2 ^ 16, n / 2 ^ 8 % 256, n % 256]
  else if n ≥ 0x80 then [0x80 + n / 2 ^ 8, n % 256]
  else [n]

/-- Whether the stream takes `n` more bytes: its answers let `n` bytes through
(in one or several writes) before any error other than `EAGAIN`. -/
def stream_accepts : List WriteEvent → Nat → Bool
  | _, 0 => true
  | [], _ + 1 => false
  | .accept k :: ws, n + 1 => stream_accepts ws (n + 1 - k)
  | .fail e :: ws, n + 1 => decide (e = EAGAIN) && stream_accepts ws (n + 1)

/-- A word that `read_word` has delivered with return code 0. -/
def delivered (w : List Nat) : WordRead := ⟨0, w⟩

/-- The status word `!tag`. -/
def status_word (tag : List Nat) : List Nat := 33 :: tag

/-- The parameter word `=key=value`. -/
def param_word (kv : List Nat × List Nat) : List Nat := 61 :: (kv.1 ++ 61 :: kv.2)

/-- Whether a word starts with `!`. -/
def is_status (w : List Nat) : Bool := w.head? == some 33

/-- A word that is malformed (`=xyz` with no second `=`) or of an unknown
category (non-empty, first byte neither `!` nor `=`). -/
def malformed_or_unknown (w : List Nat) : Bool :=
  match w with
  | [] => false
  | x :: t => if x = 61 then decide (61 ∉ t) else decide (x ≠ 33)

/-- The lowercase hexadecimal digit character for a value below 16. -/
def hex_digit (d : Nat) : Nat := if d < 10 then 48 + d else 87 + d

/-- The lowercase hexadecimal encoding of a byte string, two characters a
byte. -/
def hex_encode (bs : List Nat) : List Nat :=
  bs.flatMap (fun b => [hex_digit (b / 16), hex_digit (b % 16)])

/-- Whether a byte is a hexadecimal digit character, of either case. -/
def is_hex_char (c : Nat) : Bool :=
  [48, 49, 50, 51, 52, 53, 54, 55, 56, 57, 97, 98, 99, 100, 101, 102,
   65, 66, 67, 68, 69, 70].contains c

/-- The value of a hexadecimal digit character of either case: its place in
`0123456789abcdef`. -/
def hex_digit_value (c : Nat) : Nat :=
  [48, 49, 50, 51, 52, 53, 54, 55, 56, 57, 97, 98, 99, 100, 101, 102].indexOf
    (if 65 ≤ c ∧ c ≤ 70 then c + 32 else c)

/-- The bytes a hexadecimal text denotes, two characters a byte. -/
def hex_decode : List Nat → List Nat
  | a :: b :: rest => (16 * hex_digit_value a + hex_digit_value b) :: hex_decode rest
  | _ => []

/-- A 16-byte stand-in for the digest function in the examples: the first 16
bytes of its input, padded with zeros.  It is not MD5; the theorems take the
digest function as a parameter. -/
def stand_in_digest (x : List Nat) : List Nat :=
  ((x ++ List.replicate 16 0).take 16).map (fun b => b % 256)

/-- The challenge `00112233445566778899aabbccddeeff` of the examples. -/
def example_challenge : List Nat :=
  [48, 48, 49, 49, 50, 50, 51, 51, 52, 52, 53, 53, 54, 54, 55, 55,
   56, 56, 57, 57, 97, 97, 98, 98, 99, 99, 100, 100, 101, 101, 102, 102]

/-- The bytes a stream script delivers, in order. -/
def stream_bytes : List ReadEvent → List Nat
  | [] => []
  | .data bs :: rest => bs ++ stream_bytes rest
  | .fail _ :: rest => stream_bytes rest

/-! # Lemmas and theorems -/

set_option maxRecDepth 100000

theorem and_ff (x : Nat) : x &&& 0xff = x % 256 := Nat.and_pow_two_sub_one_eq_mod x 8

theorem set_mid (pre post : List Nat) (m x : Nat) :
    (pre ++ m :: post).set pre.length x = pre ++ x :: post := by
  induction pre with
  | nil => rfl
  | cons p ps ih => simp [List.set, ih]

theorem memcpy_mid (src : List Nat) : ∀ (pre mid post : List Nat),
    mid.length = src.length →
    memcpy (pre ++ mid ++ post) pre.length src = pre ++ src ++ post := by
  induction src with
  | nil =>
    intro pre mid post h
    have : mid = [] := List.length_eq_zero.mp (by simpa using h)
    simp [memcpy, this]
  | cons x xs ih =>
    intro pre mid post h
    cases mid with
    | nil => simp at h
    | cons m ms =>
      have hl : ms.length = xs.length := by simpa using h
      have e : (pre ++ m :: ms ++ post).set pre.length x = (pre ++ [x]) ++ ms ++ post := by
        have := set_mid pre (ms ++ post) m x
        simp [this]
      rw [memcpy, e]
      have := ih (pre ++ [x]) ms post hl
      simpa using this

theorem memcpy_eq (src mem : List Nat) (dst : Nat) (h : dst + src.length ≤ mem.length) :
    memcpy mem dst src = mem.take dst ++ src ++ mem.drop (dst + src.length) := by
  have hsplit : mem = mem.take dst ++ (mem.drop dst).take src.length ++ mem.drop (dst + src.length) := by
    rw [List.append_assoc, ← List.drop_drop, List.take_append_drop, List.take_append_drop]
  have hlen : (mem.take dst).length = dst := by simp; omega
  have hmid : ((mem.drop dst).take src.length).length = src.length := by simp; omega
  have := memcpy_mid src (mem.take dst) ((mem.drop dst).take src.length) (mem.drop (dst + src.length)) hmid
  rw [← hsplit, hlen] at this
  exact this

theorem memcpy_append (xs : List Nat) : ∀ (mem : List Nat) (dst : Nat) (ys : List Nat),
    memcpy (memcpy mem dst xs) (dst + xs.length) ys = memcpy mem dst (xs ++ ys) := by
  induction xs with
  | nil => intro mem dst ys; simp [memcpy]
  | cons x xs ih =>
    intro mem dst ys
    simp only [memcpy, List.cons_append, List.length_cons]
    have := ih (mem.set dst x) (dst + 1) ys
    have e : dst + (xs.length + 1) = dst + 1 + xs.length := by omega
    rw [e]
    exact this

theorem or_E0 : ∀ q < 16, ((q &&& 0x1f) % 256 ||| 0xE0) % 256 = 0xE0 + q := by decide
theorem or_C0 : ∀ q < 32, ((q &&& 0x3f) % 256 ||| 0xC0) % 256 = 0xC0 + q := by decide
theorem or_80 : ∀ q < 64, ((q &&& 0x7f) % 256 ||| 0x80) % 256 = 0x80 + q := by decide

theorem load_set (mem : List Nat) (i v : Nat) (h : i < mem.length) :
    load (mem.set i v) i = v := by
  simp [load, List.getD_eq_getElem?_getD, h]

theorem hdr_eq (b : Buf) (n : Nat) (hp : b.pos < b.mem.length) :
    (if n ≥ 0x10000000 then
            let m := store b.mem b.pos 0xF0
            let m := store m (b.pos + 1) ((n >>> 24) &&& 0xff)
            let m := store m (b.pos + 2) ((n >>> 16) &&& 0xff)
            let m := store m (b.pos + 3) ((n >>> 8) &&& 0xff)
            let m := store m (b.pos + 4) (n &&& 0xff)
            (⟨m, b.pos + 5, b.size - 5⟩ : Buf)
          else if n ≥ 0x200000 then
            let m := store b.mem b.pos ((n >>> 24) &&& 0x1f)
            let m := store m b.pos (load m b.pos ||| 0xE0)
            let m := store m (b.pos + 1) ((n >>> 16) &&& 0xff)
            let m := store m (b.pos + 2) ((n >>> 8) &&& 0xff)
            let m := store m (b.pos + 3) (n &&& 0xff)
            ⟨m, b.pos + 4, b.size - 4⟩
          else if n ≥ 0x4000 then
            let m := store b.mem b.pos ((n >>> 16) &&& 0x3f)
            let m := store m b.pos (load m b.pos ||| 0xC0)
            let m := store m (b.pos + 1) ((n >>> 8) &&& 0xff)
            let m := store m (b.pos + 2) (n &&& 0xff)
            ⟨m, b.pos + 3, b.size - 3⟩
          else if n ≥ 0x80 then
            let m := store b.mem b.pos ((n >>> 8) &&& 0x7f)
            let m := store m b.pos (load m b.pos ||| 0x80)
            let m := store m (b.pos + 1) (n &&& 0xff)
            ⟨m, b.pos + 2, b.size - 2⟩
          else
            let m := store b.mem b.pos n
            ⟨m, b.pos + 1, b.size - 1⟩)
     = ⟨memcpy b.mem b.pos (size_field n), b.pos + (size_field n).length,
        b.size - (size_field n).length⟩ := by
  unfold size_field
  by_cases h1 : n ≥ 0x10000000
  · simp only [h1, if_true, store, memcpy, and_ff, Nat.shiftRight_eq_div_pow, Nat.mod_mod]
    rfl
  · by_cases h2 : n ≥ 0x200000
    · have hq : n / 2 ^ 24 < 16 := by omega
      simp only [h1, h2, if_true, if_false, store, memcpy, and_ff, Nat.shiftRight_eq_div_pow,
        Nat.mod_mod, load_set _ _ _ hp, List.set_set, or_E0 _ hq]
      rfl
    · by_cases h3 : n ≥ 0x4000
      · have hq : n / 2 ^ 16 < 32 := by omega
        simp only [h1, h2, h3, if_true, if_false, store, memcpy, and_ff,
          Nat.shiftRight_eq_div_pow, Nat.mod_mod, load_set _ _ _ hp, List.set_set, or_C0 _ hq]
        rfl
      · by_cases h4 : n ≥ 0x80
        · have hq : n / 2 ^ 8 < 64 := by omega
          simp only [h1, h2, h3, h4, if_true, if_false, store, memcpy, and_ff,
            Nat.shiftRight_eq_div_pow, Nat.mod_mod, load_set _ _ _ hp, List.set_set, or_80 _ hq]
          rfl
        · have hq : n % 256 = n := by omega
          simp only [h1, h2, h3, h4, if_false, store, memcpy, hq]
          rfl

theorem take_strlen (s : List Nat) : s.take (strlen s) = strdup s := by
  unfold strlen strdup
  induction s with
  | nil => rfl
  | cons x xs ih =>
    by_cases hx : (x != 0) = true
    · simp [List.takeWhile_cons, hx, ih]
    · simp [List.takeWhile_cons, hx]

theorem size_field_length (n : Nat) :
    (size_field n).length =
      if n ≥ 0x10000000 then 5 else if n ≥ 0x200000 then 4 else if n ≥ 0x4000 then 3
      else if n ≥ 0x80 then 2 else 1 := by
  unfold size_field
  split_ifs <;> rfl

theorem req_size_eq (n : Nat) :
    (if n ≥ 0x10000000 then 5 + n
        else if n ≥ 0x200000 then 4 + n
        else if n ≥ 0x4000 then 3 + n
        else if n ≥ 0x80 then 2 + n
        else 1 + n) = (size_field n).length + n := by
  rw [size_field_length]
  split_ifs <;> rfl

theorem buffer_add_full (b : Buf) (s : List Nat) (hs : strlen s ≠ 0)
    (hcap : b.size < (size_field (strlen s)).length + strlen s) :
    buffer_add b (some s) = (ENOMEM, b) := by
  simp only [buffer_add, req_size_eq, hs, if_false, hcap, if_true]

theorem buffer_add_ok (b : Buf) (s : List Nat) (hs : strlen s ≠ 0)
    (hcap : (size_field (strlen s)).length + strlen s ≤ b.size)
    (hmem : b.pos + b.size ≤ b.mem.length) :
    buffer_add b (some s) =
      (0, ⟨b.mem.take b.pos ++ (size_field (strlen s) ++ strdup s)
              ++ b.mem.drop (b.pos + ((size_field (strlen s)).length + strlen s)),
           b.pos + ((size_field (strlen s)).length + strlen s),
           b.size - ((size_field (strlen s)).length + strlen s)⟩) := by
  have hk : 1 ≤ (size_field (strlen s)).length := by
    rw [size_field_length]; split_ifs <;> omega
  have hp : b.pos < b.mem.length := by omega
  have hnot : ¬ b.size < (size_field (strlen s)).length + strlen s := by omega
  simp only [buffer_add, req_size_eq, hs, if_false, hnot, hdr_eq b (strlen s) hp, take_strlen]
  rw [memcpy_append, memcpy_eq]
  · simp only [List.length_append, strlen, Nat.add_assoc, Nat.sub_sub]
  · simp only [List.length_append]
    have : (strdup s).length = strlen s := rfl
    omega

theorem size_field_width (n : Nat) : (size_field n).length = size_width n := by
  rw [size_field_length]; unfold size_width
  split_ifs <;> first | rfl | omega

/-- C6. For a non-empty string of length `n`: when the remaining capacity is
smaller than (width of the size field for `n`) + `n`, `buffer_add` returns
`ENOMEM` and leaves the array, the position and the remaining capacity as they
were; when the capacity is at least that, it returns 0 and the remaining
capacity has gone down by exactly (width) + `n`. -/
theorem buffer_add_capacity (b : Buf) (s : List Nat) (hs : strlen s ≠ 0) :
    (b.size < size_width (strlen s) + strlen s → buffer_add b (some s) = (ENOMEM, b)) ∧
    (size_width (strlen s) + strlen s ≤ b.size →
      (buffer_add b (some s)).1 = 0 ∧
      (buffer_add b (some s)).2.size + (size_width (strlen s) + strlen s) = b.size) := by
  rw [← size_field_width]
  constructor
  · intro h; exact buffer_add_full b s hs h
  · intro h
    have hnot : ¬ b.size < (size_field (strlen s)).length + strlen s := by omega
    simp only [buffer_add, req_size_eq, hs, if_false, hnot]
    refine ⟨trivial, ?_⟩
    rw [size_field_length] at h ⊢
    split_ifs at h ⊢ <;> simp only [] <;> omega

theorem buffer_add_capacity_witness :
    buffer_add ⟨[9, 9, 9, 9], 1, 3⟩ (some [65, 66, 67]) = (ENOMEM, ⟨[9, 9, 9, 9], 1, 3⟩) ∧
    (buffer_add ⟨[9, 9, 9, 9, 9], 1, 4⟩ (some [65, 66, 67])).2.size = 0 :=
  ⟨(buffer_add_capacity ⟨[9, 9, 9, 9], 1, 3⟩ [65, 66, 67] (by decide)).1 (by decide),
   by
    have h := ((buffer_add_capacity ⟨[9, 9, 9, 9, 9], 1, 4⟩ [65, 66, 67] (by decide)).2
      (by decide)).2
    have e : size_width (strlen [65, 66, 67]) + strlen [65, 66, 67] = 4 := by decide
    rw [e] at h
    simpa using h⟩

/-- C2. For a non-empty string of length `n < 2^32` and a remaining capacity
of at least (width) + `n` inside the array, `buffer_add` returns 0 and writes,
from the old position on, a size field `pfx` followed by the `n` bytes of the
string, touching nothing else.  The size field has 1, 2, 3, 4 or 5 bytes in the
five length ranges of the table; its first byte has the leading bits 0, 10,
110, 1110, or is `0xF0`; the remaining bits of the field are `n`, most
significant byte first. -/
theorem buffer_add_canonical (b : Buf) (s : List Nat)
    (hs : strlen s ≠ 0) (h32 : strlen s < 2 ^ 32)
    (hcap : size_width (strlen s) + strlen s ≤ b.size)
    (hmem : b.pos + b.size ≤ b.mem.length) :
    ∃ pfx : List Nat,
      buffer_add b (some s) =
        (0, ⟨b.mem.take b.pos ++ (pfx ++ strdup s)
               ++ b.mem.drop (b.pos + (pfx.length + strlen s)),
             b.pos + (pfx.length + strlen s), b.size - (pfx.length + strlen s)⟩) ∧
      (∀ x ∈ pfx, x < 256) ∧
      (strlen s ≤ 0x7F → pfx.length = 1 ∧ top_bits (pfx.headD 0) 1 = 0 ∧
        big_endian (low_bits (pfx.headD 0) 1 :: pfx.tail) = strlen s) ∧
      (0x80 ≤ strlen s ∧ strlen s ≤ 0x3FFF → pfx.length = 2 ∧ top_bits (pfx.headD 0) 2 = 0b10 ∧
        big_endian (low_bits (pfx.headD 0) 2 :: pfx.tail) = strlen s) ∧
      (0x4000 ≤ strlen s ∧ strlen s ≤ 0x1FFFFF → pfx.length = 3 ∧
        top_bits (pfx.headD 0) 3 = 0b110 ∧
        big_endian (low_bits (pfx.headD 0) 3 :: pfx.tail) = strlen s) ∧
      (0x200000 ≤ strlen s ∧ strlen s ≤ 0xFFFFFFF → pfx.length = 4 ∧
        top_bits (pfx.headD 0) 4 = 0b1110 ∧
        big_endian (low_bits (pfx.headD 0) 4 :: pfx.tail) = strlen s) ∧
      (0x10000000 ≤ strlen s → pfx.length = 5 ∧ pfx.headD 0 = 0xF0 ∧
        big_endian pfx.tail = strlen s) := by
  refine ⟨size_field (strlen s), ?_, ?_, ?_, ?_, ?_, ?_, ?_⟩
  · exact buffer_add_ok b s hs (by rw [size_field_width]; exact hcap) hmem
  · intro x hx
    unfold size_field at hx
    split_ifs at hx <;> simp at hx <;> omega
  · intro h
    have h1 : ¬ strlen s ≥ 0x10000000 := by omega
    have h2 : ¬ strlen s ≥ 0x200000 := by omega
    have h3 : ¬ strlen s ≥ 0x4000 := by omega
    have h4 : ¬ strlen s ≥ 0x80 := by omega
    simp only [size_field, h1, h2, h3, h4, if_false, top_bits, low_bits, big_endian]
    simp
    omega
  · intro h
    have h1 : ¬ strlen s ≥ 0x10000000 := by omega
    have h2 : ¬ strlen s ≥ 0x200000 := by omega
    have h3 : ¬ strlen s ≥ 0x4000 := by omega
    have h4 : strlen s ≥ 0x80 := by omega
    simp only [size_field, h1, h2, h3, h4, if_false, if_true, top_bits, low_bits, big_endian]
    simp
    omega
  · intro h
    have h1 : ¬ strlen s ≥ 0x10000000 := by omega
    have h2 : ¬ strlen s ≥ 0x200000 := by omega
    have h3 : strlen s ≥ 0x4000 := by omega
    simp only [size_field, h1, h2, h3, if_false, if_true, top_bits, low_bits, big_endian]
    simp
    omega
  · intro h
    have h1 : ¬ strlen s ≥ 0x10000000 := by omega
    have h2 : strlen s ≥ 0x200000 := by omega
    simp only [size_field, h1, h2, if_false, if_true, top_bits, low_bits, big_endian]
    simp
    omega
  · intro h
    have h1 : strlen s ≥ 0x10000000 := by omega
    simp only [size_field, h1, if_true, big_endian]
    simp
    omega

theorem buffer_add_canonical_witness :
    strlen [65, 66, 67] ≠ 0 ∧
    (buffer_add ⟨[9, 9, 9, 9, 9, 9], 1, 5⟩ (some [65, 66, 67])).1 = 0 ∧
    buffer_add ⟨[9, 9, 9, 9, 9, 9], 1, 5⟩ (some [65, 66, 67])
      = (0, ⟨[9, 3, 65, 66, 67, 9], 5, 1⟩) :=
  ⟨by decide, by
    obtain ⟨pfx, h, _⟩ := buffer_add_canonical ⟨[9, 9, 9, 9, 9, 9], 1, 5⟩ [65, 66, 67]
      (by decide) (by decide) (by decide) (by decide)
    rw [h], by rfl⟩

theorem encode_eq (s : List Nat) (hs : strlen s ≠ 0) :
    encode s = size_field (strlen s) ++ strdup s := by
  have hk : (size_field (strlen s)).length ≤ 5 := by
    rw [size_field_length]; split_ifs <;> omega
  have h := buffer_add_ok ⟨List.replicate (strlen s + 5) 0, 0, strlen s + 5⟩ s hs
    (by simp only []; omega) (by simp)
  unfold encode
  simp only [h, List.take_zero, List.nil_append, Nat.zero_add]
  rw [List.take_append_eq_append_take]
  have hl : (size_field (strlen s) ++ strdup s).length = (size_field (strlen s)).length + strlen s := by
    simp [strlen]
  simp [hl]

theorem encode_length (s : List Nat) (hs : strlen s ≠ 0) :
    (encode s).length = (size_field (strlen s)).length + strlen s := by
  rw [encode_eq s hs]; simp [strlen]

theorem buffer_add_step (b : Buf) (s : List Nat) (hs : strlen s ≠ 0)
    (hcap : (encode s).length ≤ b.size) (hmem : b.pos + b.size ≤ b.mem.length) :
    ∃ b1, buffer_add b (some s) = (0, b1) ∧
      b1.mem.take b1.pos = b.mem.take b.pos ++ encode s ∧
      b1.pos + b1.size = b.pos + b.size ∧ b1.mem.length = b.mem.length ∧
      b1.pos = b.pos + (encode s).length := by
  have hl := encode_length s hs
  have h := buffer_add_ok b s hs (by omega) hmem
  refine ⟨_, h, ?_, ?_, ?_, ?_⟩
  · simp only []
    rw [encode_eq s hs]
    have h1 : (b.mem.take b.pos ++ (size_field (strlen s) ++ strdup s)).length
        = b.pos + ((size_field (strlen s)).length + strlen s) := by
      simp [strlen]; omega
    rw [← h1, List.take_left]
  · simp only []; omega
  · have hd : (strdup s).length = strlen s := rfl
    simp only [List.length_append, List.length_take, List.length_drop, hd]
    omega
  · simp only []; omega

theorem add_args_ok : ∀ (args : List (List Nat)) (b : Buf),
    (∀ a ∈ args, strlen a ≠ 0) → b.pos + b.size ≤ b.mem.length →
    ((args.map encode).flatten).length ≤ b.size →
    ∃ b1, add_args b (args.map some) = (0, b1) ∧
      b1.mem.take b1.pos = b.mem.take b.pos ++ (args.map encode).flatten ∧
      b1.pos + b1.size = b.pos + b.size ∧ b1.mem.length = b.mem.length ∧
      b1.pos = b.pos + ((args.map encode).flatten).length := by
  intro args
  induction args with
  | nil => intro b _ _ _; exact ⟨b, rfl, by simp, rfl, rfl, by simp⟩
  | cons a as ih =>
    intro b ha hmem hcap
    simp only [List.map_cons, List.flatten_cons, List.length_append] at hcap
    obtain ⟨b1, e1, t1, s1, l1, p1⟩ :=
      buffer_add_step b a (ha a (List.mem_cons_self _ _)) (by omega) hmem
    obtain ⟨b2, e2, t2, s2, l2, p2⟩ :=
      ih b1 (fun x hx => ha x (List.mem_cons_of_mem _ hx)) (by omega) (by omega)
    refine ⟨b2, ?_, ?_, ?_, ?_, ?_⟩
    · simp only [List.map_cons, add_args, e1]
      simpa using e2
    · rw [t2, t1]; simp
    · omega
    · omega
    · simp only [List.map_cons, List.flatten_cons, List.length_append]; omega

theorem write_loop_accepts : ∀ (ws : List WriteEvent) (pending wire : List Nat),
    stream_accepts ws pending.length = true →
    ∃ rest, write_loop ws pending wire = .returns ⟨0, wire ++ pending, rest⟩ := by
  intro ws
  induction ws with
  | nil =>
    intro pending wire h
    cases pending with
    | nil => exact ⟨[], by simp [write_loop]⟩
    | cons p ps => simp [stream_accepts] at h
  | cons w ws ih =>
    intro pending wire h
    cases pending with
    | nil => exact ⟨w :: ws, by simp [write_loop]⟩
    | cons p ps =>
      cases w with
      | accept k =>
        simp only [List.length_cons, stream_accepts] at h
        obtain ⟨rest, hr⟩ := ih ((p :: ps).drop k) (wire ++ (p :: ps).take k)
          (by simpa only [List.length_drop, List.length_cons] using h)
        refine ⟨rest, ?_⟩
        rw [write_loop, hr, List.append_assoc, List.take_append_drop]
      | fail e =>
        simp only [List.length_cons, stream_accepts, Bool.and_eq_true, decide_eq_true_eq] at h
        obtain ⟨rest, hr⟩ := ih (p :: ps) wire (by simpa only [List.length_cons] using h.2)
        refine ⟨rest, ?_⟩
        rw [write_loop]; simp only [h.1, if_true]; exact hr

theorem add_args_bad : ∀ (args : List (Option (List Nat))) (b : Buf),
    (∃ a ∈ args, a = none ∨ ∃ s, a = some s ∧ strlen s = 0) → (add_args b args).1 ≠ 0 := by
  intro args
  induction args with
  | nil => intro b h; obtain ⟨a, ha, _⟩ := h; simp at ha
  | cons x xs ih =>
    intro b h
    cases x with
    | none => simp [add_args, EINVAL]
    | some s =>
      rw [add_args]
      by_cases hr : (buffer_add b (some s)).1 ≠ 0
      · rw [if_pos hr]; exact hr
      · rw [if_neg hr]
        apply ih
        obtain ⟨a, ha, hbad⟩ := h
        rcases List.mem_cons.mp ha with rfl | hmem
        · exfalso
          apply hr
          rcases hbad with h0 | ⟨t, ht, hz⟩
          · simp at h0
          · cases ht
            simp [buffer_add, hz, EINVAL]
        · exact ⟨a, hmem, hbad⟩

/-- C5. When the command is the empty string, or some argument, at any
position, is `NULL` or the empty string, `send_command` returns a non-zero
code, has written no byte to the stream and has made no `write` call (the
answers of the stream are all still pending). -/
theorem send_command_invalid (command : Option (List Nat)) (args : List (Option (List Nat)))
    (ws : List WriteEvent)
    (h : (∃ s, command = some s ∧ strlen s = 0) ∨
         (∃ a ∈ args, a = none ∨ ∃ s, a = some s ∧ strlen s = 0)) :
    ∃ status, status ≠ 0 ∧ send_command command args ws = .returns ⟨status, [], ws⟩ := by
  unfold send_command
  generalize List.replicate 4096 0 = mem0
  have hi : buffer_init ⟨mem0, 0, 4096⟩ = 0 := by
    simp [buffer_init]
  simp only [hi, ne_eq, not_true, if_false]
  by_cases h1 : (buffer_add ⟨mem0, 0, 4096⟩ command).1 = 0
  · have h2 : (add_args (buffer_add ⟨mem0, 0, 4096⟩ command).2 args).1 ≠ 0 := by
      apply add_args_bad
      rcases h with ⟨s, hs, hz⟩ | h
      · exfalso
        subst hs
        simp [buffer_add, hz, EINVAL] at h1
      · exact h
    simp only [h1, not_true, if_false, h2, not_false_eq_true, if_true]
    exact ⟨_, h2, rfl⟩
  · simp only [h1, not_false_eq_true, if_true]
    exact ⟨_, h1, rfl⟩

theorem send_command_invalid_witness :
    ∃ status, status ≠ 0 ∧
      send_command (some [47, 108]) [some [61, 97, 61, 49], some []] [.accept 100]
        = .returns ⟨status, [], [.accept 100]⟩ :=
  send_command_invalid (some [47, 108]) [some [61, 97, 61, 49], some []] [.accept 100]
    (Or.inr ⟨some [], by simp, Or.inr ⟨[], rfl, rfl⟩⟩)

/-- C4. For a non-empty command and non-empty arguments whose encodings plus
the terminator fit the 4096-byte buffer, and a stream that takes that many
bytes (through short writes and `EAGAIN` retries), `send_command` returns 0 and
the bytes written to the stream are, in order, the encoded command, the encoded
arguments and one zero byte. -/
theorem send_command_wire (command : List Nat) (args : List (List Nat))
    (ws : List WriteEvent)
    (hc : strlen command ≠ 0) (ha : ∀ a ∈ args, strlen a ≠ 0)
    (hfit : (encode command ++ (args.map encode).flatten ++ [0]).length ≤ 4096)
    (hacc : stream_accepts ws
              (encode command ++ (args.map encode).flatten ++ [0]).length = true) :
    ∃ rest, send_command (some command) (args.map some) ws
      = .returns ⟨0, encode command ++ (args.map encode).flatten ++ [0], rest⟩ := by
  obtain ⟨rest, hr⟩ := write_loop_accepts ws
    (encode command ++ (args.map encode).flatten ++ [0]) [] hacc
  simp only [List.length_append, List.length_singleton] at hfit
  unfold send_command
  have hl : (List.replicate 4096 0).length = 4096 := List.length_replicate _ _
  generalize List.replicate 4096 0 = mem0 at hl
  have hi : buffer_init ⟨mem0, 0, 4096⟩ = 0 := by
    simp [buffer_init]
  obtain ⟨b1, e1, t1, s1, l1, p1⟩ :=
    buffer_add_step ⟨mem0, 0, 4096⟩ command hc (by simp only []; omega)
      (by simp only []; omega)
  simp only [List.take_zero, List.nil_append, Nat.zero_add] at t1 s1 l1 p1
  obtain ⟨b2, e2, t2, s2, l2, p2⟩ := add_args_ok args b1 ha (by omega) (by omega)
  have hsz : ¬ b2.size < 1 := by omega
  have e3 : buffer_end b2 = (0, ⟨store b2.mem b2.pos 0, b2.pos + 1, b2.size - 1⟩) := by
    simp [buffer_end, hsz]
  simp only [hi, e1, e2, e3, ne_eq, not_true, if_false]
  have hpend : (store b2.mem b2.pos 0).take (4096 - (b2.size - 1))
      = encode command ++ (args.map encode).flatten ++ [0] := by
    have hpos : b2.pos < b2.mem.length := by omega
    have e4 : 4096 - (b2.size - 1) = b2.pos + 1 := by omega
    rw [e4, store, List.set_eq_take_append_cons_drop]
    simp only [hpos, if_true]
    have hlen : (b2.mem.take b2.pos).length = b2.pos := by
      simp only [List.length_take]; omega
    rw [show b2.mem.take b2.pos ++ 0 % 256 :: b2.mem.drop (b2.pos + 1)
        = (b2.mem.take b2.pos ++ [0]) ++ b2.mem.drop (b2.pos + 1) by simp]
    rw [List.take_left' (by simp only [List.length_append, hlen, List.length_singleton])]
    rw [t2, t1]
  rw [hpend]
  exact ⟨rest, by simpa using hr⟩

theorem send_command_wire_witness :
    stream_accepts [.accept 3, .fail 11, .accept 2, .accept 100] 12 = true ∧
    ∃ rest, send_command (some [47, 108, 111]) [some [61, 97, 61, 49], some [61, 98]]
        [.accept 3, .fail 11, .accept 2, .accept 100]
      = .returns ⟨0, [3, 47, 108, 111, 4, 61, 97, 61, 49, 2, 61, 98, 0], rest⟩ :=
  ⟨by decide,
   send_command_wire [47, 108, 111] [[61, 97, 61, 49], [61, 98]]
     [.accept 3, .fail 11, .accept 2, .accept 100] (by decide) (by decide) (by decide)
     (by decide)⟩

theorem and_80 (x : Nat) : x &&& 0x80 = 0x80 ∨ x &&& 0x80 = 0 := by
  have h128 : (0x80 : Nat) = 2 ^ 7 := rfl
  by_cases h : x.testBit 7 = true
  · left
    apply Nat.eq_of_testBit_eq
    intro i
    rw [Nat.testBit_and, h128, Nat.testBit_two_pow]
    by_cases hi : 7 = i
    · subst hi; simp [h]
    · simp [hi]
  · right
    apply Nat.eq_of_testBit_eq
    intro i
    rw [Nat.testBit_and, h128, Nat.testBit_two_pow]
    by_cases hi : 7 = i
    · subst hi; simp [h]
    · simp [hi]

theorem sys_read_neg (s : List ReadEvent) (want : Nat) (h : (sys_read s want).1 < 0) :
    (sys_read s want).1 = -1 := by
  cases s with
  | nil => simp [sys_read] at h
  | cons e rest =>
    cases e with
    | data bs =>
      simp only [sys_read] at h
      split_ifs at h <;> simp at h <;> omega
    | fail e => rfl

theorem read_exact_loop_status : ∀ (fuel : Nat) (s : List ReadEvent) (got : List Nat) (n : Nat)
    (r : ReadRes), read_exact_loop fuel s got n = some r → r.status = 0 ∨ r.status = -1 := by
  intro fuel
  induction fuel with
  | zero =>
    intro s got n r h
    simp only [read_exact_loop] at h
    split_ifs at h
    cases h; left; rfl
  | succ f ih =>
    intro s got n r h
    simp only [read_exact_loop] at h
    split_ifs at h with h1 h2 h3
    · exact ih _ _ _ _ h
    · cases h; right; exact sys_read_neg _ _ h2
    · exact ih _ _ _ _ h
    · cases h; left; rfl

theorem read_exact_status (fuel : Nat) (fd : Int) (s : List ReadEvent) (n : Nat) (r : ReadRes)
    (h : read_exact fuel fd s n = some r) :
    r.status = 0 ∨ r.status = -1 ∨ r.status = EINVAL := by
  simp only [read_exact] at h
  split_ifs at h
  · cases h; right; right; rfl
  · cases h; left; rfl
  · rcases read_exact_loop_status _ _ _ _ _ h with h0 | h0
    · left; exact h0
    · right; left; exact h0

theorem read_word_size_status (cs : Bool) (fuel : Nat) (fd : Int) (s : List ReadEvent)
    (buffer : List Nat) (r : SizeRes) (h : read_word_size cs fuel fd s buffer = some r) :
    r.status = 0 ∨ r.status = -1 ∨ r.status = EINVAL := by
  have tail : ∀ (n : Nat) (s1 : List ReadEvent) (q : Nat) (r : SizeRes),
      (match read_exact fuel fd s1 n with
        | none => none
        | some r1 => if r1.status ≠ 0 then some (⟨r1.status, 0, r1.rest⟩ : SizeRes)
                     else some ⟨0, q, r1.rest⟩) = some r →
      r.status = 0 ∨ r.status = -1 ∨ r.status = EINVAL := by
    intro n s1 q r h
    cases hr : read_exact fuel fd s1 n with
    | none => rw [hr] at h; simp at h
    | some r1 =>
      rw [hr] at h
      simp only [] at h
      split_ifs at h
      · cases h; exact read_exact_status _ _ _ _ _ hr
      · cases h; left; rfl
  unfold read_word_size at h
  cases hr : read_exact fuel fd s 1 with
  | none => rw [hr] at h; simp at h
  | some r0 =>
    rw [hr] at h
    simp only [] at h
    split_ifs at h with h0 h1 h2 h3 h4 h5
    · cases h; exact read_exact_status _ _ _ _ _ hr
    · exact tail _ _ _ _ h
    · exact tail _ _ _ _ h
    · exact tail _ _ _ _ h
    · exact tail _ _ _ _ h
    · cases h; left; rfl
    · exfalso
      rcases and_80 (char_to_int cs (load buffer 0)) with h6 | h6
      · exact h4 h6
      · exact h5 h6

/-- C3 (what the code does instead). Whenever `read_word` returns, its return
code is not `EPROTO`: the branch of line 457 cannot be reached, because the two
tests on bit `0x80` before it cover every byte, and the byte they test is
`buffer[0]`, not the size byte just read. -/
theorem read_word_never_EPROTO (char_signed : Bool) (fuel : Nat) (fd : Int)
    (s : List ReadEvent) (buffer : List Nat) (buffer_size : Nat) (r : WordRes)
    (h : read_word char_signed fuel fd s buffer buffer_size = some r) :
    r.status ≠ EPROTO := by
  have key : r.status = 0 ∨ r.status = -1 ∨ r.status = EINVAL ∨ r.status = ENOMEM := by
    unfold read_word at h
    split_ifs at h with h0
    · cases h; right; right; left; rfl
    · cases hr : read_word_size char_signed fuel fd s buffer with
      | none => rw [hr] at h; simp at h
      | some r1 =>
        rw [hr] at h
        simp only [] at h
        split_ifs at h with h1 h2 h3
        · cases h
          rcases read_word_size_status _ _ _ _ _ _ hr with h | h | h
          · left; exact h
          · right; left; exact h
          · right; right; left; exact h
        · cases h; right; right; right; rfl
        · cases h; left; rfl
        · cases hd : read_exact fuel fd r1.rest r1.req_size with
          | none => rw [hd] at h; simp at h
          | some rd =>
            rw [hd] at h
            simp only [] at h
            split_ifs at h
            · cases h
              rcases read_exact_status _ _ _ _ _ hd with h | h | h
              · left; exact h
              · right; left; exact h
              · right; right; left; exact h
            · cases h; left; rfl
  rcases key with h | h | h | h <;> rw [h] <;> decide

theorem read_word_never_EPROTO_witness :
    read_word true 4 3 [.data (0xF5 :: List.replicate 245 65)]
        (33 :: List.replicate 4095 0) 4095
      = some ⟨0, List.replicate 245 65 ++ List.replicate 3851 0, 245, []⟩ ∧
    (0 : Int) ≠ EPROTO :=
  ⟨by rfl, read_word_never_EPROTO true 4 3 [.data (0xF5 :: List.replicate 245 65)]
      (33 :: List.replicate 4095 0) 4095
      ⟨0, List.replicate 245 65 ++ List.replicate 3851 0, 245, []⟩ (by rfl)⟩

theorem strchr_key : ∀ (k v : List Nat), 0 ∉ k → 61 ∉ k →
    strchr (k ++ 61 :: v) 61 = some k.length := by
  intro k
  induction k with
  | nil => intro v _ _; simp [strchr]
  | cons x xs ih =>
    intro v h0 h61
    have hx61 : x ≠ 61 := fun e => h61 (by simp [e])
    have hx0 : x ≠ 0 := fun e => h0 (by simp [e])
    have := ih v (fun h => h0 (List.mem_cons_of_mem _ h)) (fun h => h61 (List.mem_cons_of_mem _ h))
    simp [strchr, hx61, hx0, this]

theorem strchr_none : ∀ (t : List Nat), 61 ∉ t → strchr (t ++ [0]) 61 = none := by
  intro t
  induction t with
  | nil => intro _; simp [strchr]
  | cons x xs ih =>
    intro h61
    have hx61 : x ≠ 61 := fun e => h61 (by simp [e])
    have := ih (fun h => h61 (List.mem_cons_of_mem _ h))
    simp [strchr, hx61, this]

theorem strdup_stop : ∀ (t rest : List Nat), 0 ∉ t → strdup (t ++ 0 :: rest) = t := by
  intro t
  induction t with
  | nil => intro rest _; simp [strdup]
  | cons x xs ih =>
    intro rest h0
    have hx0 : x ≠ 0 := fun e => h0 (by simp [e])
    have := ih rest (fun h => h0 (List.mem_cons_of_mem _ h))
    unfold strdup at this ⊢
    simp [List.takeWhile_cons, hx0, this]

theorem receive_loop_status (tag : List Nat) (rest : List WordRead) (chain : List mt_reply_s)
    (hlen : (33 :: tag).length < 4096) :
    receive_loop (⟨0, 33 :: tag⟩ :: rest) chain
      = receive_loop rest (chain ++ [⟨strdup (tag ++ [0]), [], []⟩]) := by
  rw [receive_loop]
  simp only [ne_eq, not_true, if_false, hlen, not_not]
  simp [load, reply_alloc]

theorem receive_loop_keyval (k v : List Nat) (rest : List WordRead) (pre : List mt_reply_s)
    (r : mt_reply_s) (hk0 : 0 ∉ k) (hk61 : 61 ∉ k) (hv0 : 0 ∉ v)
    (hlen : (61 :: (k ++ 61 :: v)).length < 4096) :
    receive_loop (⟨0, 61 :: (k ++ 61 :: v)⟩ :: rest) (pre ++ [r])
      = receive_loop rest (pre ++ [{ r with keys := r.keys ++ [k], values := r.values ++ [v] }]) := by
  rw [receive_loop]
  have hs : strchr (k ++ 61 :: (v ++ [0])) 61 = some k.length := strchr_key k _ hk0 hk61
  have hset : (k ++ 61 :: (v ++ [0])).set k.length 0 = k ++ 0 :: (v ++ [0]) := set_mid k _ 61 0
  have hd1 : strdup (k ++ 0 :: (v ++ [0])) = k := strdup_stop k _ hk0
  have hdrop : (k ++ 0 :: (v ++ [0])).drop (k.length + 1) = v ++ [0] := by
    rw [show k ++ 0 :: (v ++ [0]) = (k ++ [0]) ++ (v ++ [0]) by simp]
    rw [List.drop_left' (by simp)]
  have hd2 : strdup (v ++ [0]) = v := strdup_stop v [] hv0
  simp only [ne_eq, not_true, if_false, hlen, not_not]
  simp [load, hs, hset, hd1, hdrop, hd2, reply_add_keyval]

theorem receive_loop_end (rest : List WordRead) (chain : List mt_reply_s) :
    receive_loop (delivered [] :: rest) chain = .returns (0, chain, rest) := by
  rw [receive_loop]; simp [delivered]

theorem receive_loop_fail (st : Int) (w : List Nat) (rest : List WordRead)
    (chain : List mt_reply_s) (hst : st ≠ 0) :
    receive_loop (⟨st, w⟩ :: rest) chain = .returns (st, chain, rest) := by
  rw [receive_loop]; simp [hst]

theorem receive_loop_params : ∀ (kvs : List (List Nat × List Nat)) (tl : List WordRead)
    (pre : List mt_reply_s) (r : mt_reply_s),
    (∀ kv ∈ kvs, 0 ∉ kv.1 ∧ 61 ∉ kv.1 ∧ 0 ∉ kv.2 ∧ (param_word kv).length ≤ 4095) →
    receive_loop (kvs.map (fun kv => delivered (param_word kv)) ++ tl) (pre ++ [r])
      = receive_loop tl (pre ++ [{ r with keys := r.keys ++ kvs.map Prod.fst,
                                          values := r.values ++ kvs.map Prod.snd }]) := by
  intro kvs
  induction kvs with
  | nil => intro tl pre r _; simp
  | cons kv kvs ih =>
    intro tl pre r h
    obtain ⟨h1, h2, h3, h4⟩ := h kv (List.mem_cons_self _ _)
    simp only [List.map_cons, List.cons_append, delivered, param_word] at h4 ⊢
    rw [receive_loop_keyval kv.1 kv.2 _ pre r h1 h2 h3 (by omega)]
    have := ih tl pre { r with keys := r.keys ++ [kv.1], values := r.values ++ [kv.2] }
      (fun x hx => h x (List.mem_cons_of_mem _ hx))
    simp only [delivered, param_word] at this
    rw [this]
    simp

theorem receive_loop_skip (w : List Nat) (tl : List WordRead) (chain : List mt_reply_s)
    (hs : malformed_or_unknown w = true) (hlen : w.length < 4096) :
    receive_loop (delivered w :: tl) chain = receive_loop tl chain := by
  cases w with
  | nil => simp [malformed_or_unknown] at hs
  | cons x t =>
    rw [receive_loop]
    simp only [delivered, ne_eq, not_true, if_false, hlen, not_not]
    simp only [malformed_or_unknown] at hs
    by_cases hx : x = 61
    · subst hx
      simp only [if_true, decide_eq_true_eq] at hs
      have := strchr_none t hs
      simp [load, this]
    · simp only [hx, if_false, decide_eq_true_eq] at hs
      simp [load, hx, hs]

theorem receive_loop_word (w : List Nat) (chain : List mt_reply_s) (hw : w ≠ [])
    (hlen : w.length < 4096) (hc : chain ≠ []) :
    ∃ chain1, chain1 ≠ [] ∧
      chain1.length = chain.length + (if is_status w = true then 1 else 0) ∧
      ∀ tl, receive_loop (delivered w :: tl) chain = receive_loop tl chain1 := by
  cases w with
  | nil => exact absurd rfl hw
  | cons x t =>
    by_cases h33 : x = 33
    · subst h33
      refine ⟨chain ++ [⟨strdup (t ++ [0]), [], []⟩], by simp, by simp [is_status], ?_⟩
      intro tl
      exact receive_loop_status t tl chain hlen
    · by_cases h61 : x = 61
      · subst h61
        cases hs : strchr (t ++ [0]) 61 with
        | none =>
          refine ⟨chain, hc, by simp [is_status], ?_⟩
          intro tl
          rw [receive_loop]
          simp only [delivered, ne_eq, not_true, if_false, hlen, not_not]
          simp [load, hs]
        | some i =>
          obtain ⟨r, hr⟩ : ∃ r, chain.getLast? = some r := by
            cases hl : chain.getLast? with
            | none => exact absurd (List.getLast?_eq_none_iff.mp hl) hc
            | some r => exact ⟨r, rfl⟩
          refine ⟨chain.dropLast ++ [(reply_add_keyval r ((t ++ [0]).set i 0)
            (((t ++ [0]).set i 0).drop (i + 1))).2], by simp, ?_, ?_⟩
          · have : chain.length ≠ 0 := fun h => hc (List.length_eq_zero.mp h)
            simp [is_status]; omega
          · intro tl
            rw [receive_loop]
            simp only [delivered, ne_eq, not_true, if_false, hlen, not_not]
            simp [load, hs, hr]
      · refine ⟨chain, hc, by simp [is_status, h33], ?_⟩
        intro tl
        rw [receive_loop]
        simp only [delivered, ne_eq, not_true, if_false, hlen, not_not]
        simp [load, h33, h61]

theorem receive_loop_words : ∀ (ws : List (List Nat)) (chain : List mt_reply_s),
    (∀ w ∈ ws, w ≠ [] ∧ w.length ≤ 4095) → chain ≠ [] →
    ∃ chain1, chain1 ≠ [] ∧
      chain1.length = chain.length + (ws.filter is_status).length ∧
      ∀ tl, receive_loop (ws.map delivered ++ tl) chain = receive_loop tl chain1 := by
  intro ws
  induction ws with
  | nil => intro chain _ hc; exact ⟨chain, hc, by simp, fun tl => by simp⟩
  | cons w ws ih =>
    intro chain h hc
    obtain ⟨hw, hl⟩ := h w (List.mem_cons_self _ _)
    obtain ⟨c1, hc1, hn1, e1⟩ := receive_loop_word w chain hw (by omega) hc
    obtain ⟨c2, hc2, hn2, e2⟩ := ih c1 (fun x hx => h x (List.mem_cons_of_mem _ hx)) hc1
    refine ⟨c2, hc2, ?_, ?_⟩
    · rw [hn2, hn1, List.filter_cons]
      split_ifs
      · simp only [List.length_cons]; omega
      · omega
    · intro tl
      simp only [List.map_cons, List.cons_append]
      rw [e1, e2]

theorem receive_loop_filter : ∀ (ws : List (List Nat)) (chain : List mt_reply_s)
    (tl : List WordRead),
    (∀ w ∈ ws, w ≠ [] ∧ w.length ≤ 4095) → chain ≠ [] →
    receive_loop ((ws.filter (fun w => !malformed_or_unknown w)).map delivered ++ tl) chain
      = receive_loop (ws.map delivered ++ tl) chain := by
  intro ws
  induction ws with
  | nil => intro chain tl _ _; rfl
  | cons w ws ih =>
    intro chain tl h hc
    obtain ⟨hw, hl⟩ := h w (List.mem_cons_self _ _)
    have h1 : ∀ x ∈ ws, x ≠ [] ∧ x.length ≤ 4095 := fun x hx => h x (List.mem_cons_of_mem _ hx)
    by_cases hs : malformed_or_unknown w = true
    · simp only [List.filter_cons, hs, Bool.not_true, List.map_cons, List.cons_append]
      rw [receive_loop_skip w _ chain hs (by omega)]
      simpa using ih chain tl h1 hc
    · simp only [List.filter_cons, hs, List.map_cons, List.cons_append]
      obtain ⟨c1, hc1, _, e1⟩ := receive_loop_word w chain hw (by omega) hc
      simp only [Bool.not_eq_true] at hs
      simp only [hs, Bool.not_false, if_true, List.map_cons, List.cons_append]
      rw [e1, e1]
      exact ih c1 tl h1 hc1

/-- C1 (what the code does instead). A string of 200 bytes is encoded with the
size field `0x80 0xC8`.  When the stream delivers it and the receive buffer
still holds the previous word `!re`, `read_word` looks at `buffer[0] = '!'`,
takes the one-byte form and computes `req_size = 128`, the value of the first
size byte, not 200; the second size byte stays on the stream as content.  When
the buffer starts with the bytes `0x80 0x00` instead, the same stream gives
`req_size = 0`. -/
theorem read_word_size_not_roundtrip (char_signed : Bool) :
    strlen (List.replicate 200 65) = 200 ∧
    encode (List.replicate 200 65) = 0x80 :: 200 :: List.replicate 200 65 ∧
    read_word_size char_signed 4 3 [.data (encode (List.replicate 200 65))]
        (33 :: 114 :: 101 :: List.replicate 4093 0)
      = some ⟨0, 128, [.data (200 :: List.replicate 200 65)]⟩ ∧
    read_word_size char_signed 4 3 [.data (encode (List.replicate 200 65))]
        (0x80 :: List.replicate 4095 0)
      = some ⟨0, 0, [.data (List.replicate 200 65)]⟩ := by
  cases char_signed <;> exact ⟨rfl, rfl, rfl, rfl⟩

/-- C7, counterexample. The words `!done`, `=k<NUL>x=v` (a zero byte inside the
key, which is free of `=`) and the empty word give a record with no parameter
at all, not the one parameter the claim promises: `strchr` stops at the zero
byte, so the word counts as malformed. -/
theorem receive_reply_zero_byte_drops_parameter :
    61 ∉ [107, 0, 120] ∧
    receive_reply [delivered (status_word [100, 111, 110, 101]),
        delivered (param_word ([107, 0, 120], [118])), delivered []]
      = .returns ([⟨[100, 111, 110, 101], [], []⟩], []) ∧
    ([] : List (List Nat)) ≠ [[107, 0, 120]] := by
  refine ⟨by decide, ?_, by decide⟩
  rfl

/-- C7, amended. For words `!tag`, `=k1=v1`, ..., `=kn=vn`, empty word, all
free of zero bytes, keys free of `=`, each at most 4095 bytes, `receive_reply`
returns a chain of exactly one record with status `tag` and the parameters
`(k1, v1), ..., (kn, vn)` in arrival order (duplicate keys kept, values may
contain `=`), and has consumed exactly these words. -/
theorem receive_reply_sentence (tag : List Nat) (kvs : List (List Nat × List Nat))
    (rest : List WordRead)
    (htag : 0 ∉ tag ∧ (status_word tag).length ≤ 4095)
    (hkv : ∀ kv ∈ kvs, 0 ∉ kv.1 ∧ 61 ∉ kv.1 ∧ 0 ∉ kv.2 ∧ (param_word kv).length ≤ 4095) :
    receive_reply (delivered (status_word tag)
        :: (kvs.map (fun kv => delivered (param_word kv)) ++ delivered [] :: rest))
      = .returns ([⟨tag, kvs.map Prod.fst, kvs.map Prod.snd⟩], rest) := by
  obtain ⟨h0, hl⟩ := htag
  unfold receive_reply
  simp only [delivered, status_word] at hl ⊢
  rw [receive_loop_status tag _ [] (by omega), strdup_stop tag [] h0]
  have := receive_loop_params kvs (delivered [] :: rest) [] ⟨tag, [], []⟩ hkv
  simp only [delivered] at this
  rw [this]
  have e := receive_loop_end rest ([] ++ [(⟨tag, [] ++ kvs.map Prod.fst, [] ++ kvs.map Prod.snd⟩ : mt_reply_s)])
  simp only [delivered] at e
  rw [e]
  simp

theorem receive_reply_sentence_witness :
    receive_reply
      [delivered (status_word [100, 111, 110, 101]),
       delivered (param_word ([114, 101, 116],
         [48, 48, 49, 49, 50, 50, 51, 51, 52, 52, 53, 53, 54, 54, 55, 55,
          56, 56, 57, 57, 97, 97, 98, 98, 99, 99, 100, 100, 101, 101, 102, 102])),
       delivered []]
      = .returns ([⟨[100, 111, 110, 101], [[114, 101, 116]],
          [[48, 48, 49, 49, 50, 50, 51, 51, 52, 52, 53, 53, 54, 54, 55, 55,
            56, 56, 57, 57, 97, 97, 98, 98, 99, 99, 100, 100, 101, 101, 102, 102]]⟩], []) :=
  receive_reply_sentence [100, 111, 110, 101]
    [([114, 101, 116],
      [48, 48, 49, 49, 50, 50, 51, 51, 52, 52, 53, 53, 54, 54, 55, 55,
       56, 56, 57, 57, 97, 97, 98, 98, 99, 99, 100, 100, 101, 101, 102, 102])] []
    (by decide) (by decide)

/-- C8. For a sentence that starts with a status word, `receive_reply`
returns a non-empty chain, and it returns the same chain (and stops at the same
place) for the sentence from which every malformed word (`=xyz` with no second
`=`) and every word of an unknown category has been removed. -/
theorem receive_reply_skips (tag : List Nat) (ws : List (List Nat)) (rest : List WordRead)
    (htag : (status_word tag).length ≤ 4095)
    (hws : ∀ w ∈ ws, w ≠ [] ∧ w.length ≤ 4095) :
    ∃ chain, chain ≠ [] ∧
      receive_reply (delivered (status_word tag) :: (ws.map delivered ++ delivered [] :: rest))
        = .returns (chain, rest) ∧
      receive_reply (delivered (status_word tag)
          :: ((ws.filter (fun w => !malformed_or_unknown w)).map delivered
                ++ delivered [] :: rest))
        = .returns (chain, rest) := by
  simp only [status_word, List.length_cons] at htag
  have hc : ([] ++ [(⟨strdup (tag ++ [0]), [], []⟩ : mt_reply_s)]) ≠ [] := by simp
  obtain ⟨c1, hc1, _, e1⟩ := receive_loop_words ws _ hws hc
  have hf := receive_loop_filter ws _ (delivered [] :: rest) hws hc
  refine ⟨c1, hc1, ?_, ?_⟩
  · unfold receive_reply
    simp only [delivered, status_word]
    rw [receive_loop_status tag _ [] (by simp only [List.length_cons]; omega)]
    have := e1 (delivered [] :: rest)
    simp only [delivered] at this
    rw [this]
    have e := receive_loop_end rest c1
    simp only [delivered] at e
    rw [e]
    simp
  · unfold receive_reply
    simp only [delivered, status_word]
    rw [receive_loop_status tag _ [] (by simp only [List.length_cons]; omega)]
    simp only [delivered] at hf
    rw [hf]
    have := e1 (delivered [] :: rest)
    simp only [delivered] at this
    rw [this]
    have e := receive_loop_end rest c1
    simp only [delivered] at e
    rw [e]
    simp

theorem receive_reply_skips_witness :
    receive_reply
      [delivered (status_word [100, 111, 110, 101]), delivered (param_word ([97], [49])),
       delivered [61, 98, 97, 100, 119, 111, 114, 100], delivered (param_word ([98], [50])),
       delivered []]
      = .returns ([⟨[100, 111, 110, 101], [[97], [98]], [[49], [50]]⟩], []) ∧
    receive_reply
      [delivered (status_word [100, 111, 110, 101]), delivered (param_word ([97], [49])),
       delivered [61, 98, 97, 100, 119, 111, 114, 100], delivered (param_word ([98], [50])),
       delivered []]
      = receive_reply
      [delivered (status_word [100, 111, 110, 101]), delivered (param_word ([97], [49])),
       delivered (param_word ([98], [50])), delivered []] :=
  ⟨by rfl, by
    obtain ⟨chain, _, h1, h2⟩ := receive_reply_skips [100, 111, 110, 101]
      [param_word ([97], [49]), [61, 98, 97, 100, 119, 111, 114, 100], param_word ([98], [50])]
      [] (by decide) (by decide)
    exact h1.trans h2.symm⟩

/-- C9, counterexample. For the reply `!re`, `=a=1`, empty word, `!done`,
empty word, `receive_reply` returns a chain of one record (status `re`) and
leaves the terminal sentence `!done`, empty word unread. -/
theorem receive_reply_stops_at_first_empty_word :
    receive_reply
      [delivered (status_word [114, 101]), delivered (param_word ([97], [49])), delivered [],
       delivered (status_word [100, 111, 110, 101]), delivered []]
      = .returns ([⟨[114, 101], [[97]], [[49]]⟩],
          [delivered (status_word [100, 111, 110, 101]), delivered []]) ∧
    mt_reply_num [⟨[114, 101], [[97]], [[49]]⟩] = 1 := by
  constructor
  · rfl
  · rfl

/-- C9, amended. `receive_reply` ends the reply at the first empty word,
whatever the status tags are: for a sentence that starts with a status word it
returns a chain with one record for every status word before the first empty
word and consumes exactly the words up to and including that empty word; and
when a `read_word` call fails before any empty word has come, it returns no
chain. -/
theorem receive_reply_first_sentence (tag : List Nat) (ws : List (List Nat))
    (rest : List WordRead)
    (htag : (status_word tag).length ≤ 4095)
    (hws : ∀ w ∈ ws, w ≠ [] ∧ w.length ≤ 4095) :
    (∃ chain, mt_reply_num chain = 1 + (ws.filter is_status).length ∧
      receive_reply (delivered (status_word tag) :: (ws.map delivered ++ delivered [] :: rest))
        = .returns (chain, rest)) ∧
    (∀ st w, st ≠ 0 →
      receive_reply (delivered (status_word tag) :: (ws.map delivered ++ ⟨st, w⟩ :: rest))
        = .returns ([], rest)) := by
  simp only [status_word, List.length_cons] at htag
  have hc : ([] ++ [(⟨strdup (tag ++ [0]), [], []⟩ : mt_reply_s)]) ≠ [] := by simp
  obtain ⟨c1, hc1, hn, e1⟩ := receive_loop_words ws _ hws hc
  constructor
  · refine ⟨c1, ?_, ?_⟩
    · simp only [mt_reply_num, hn, List.length_append, List.length_nil, List.length_singleton]
      push_cast
      omega
    · unfold receive_reply
      simp only [delivered, status_word]
      rw [receive_loop_status tag _ [] (by simp only [List.length_cons]; omega)]
      have := e1 (delivered [] :: rest)
      simp only [delivered] at this
      rw [this]
      have e := receive_loop_end rest c1
      simp only [delivered] at e
      rw [e]
      simp
  · intro st w hst
    unfold receive_reply
    simp only [delivered, status_word]
    rw [receive_loop_status tag _ [] (by simp only [List.length_cons]; omega)]
    have := e1 (⟨st, w⟩ :: rest)
    simp only [delivered] at this
    rw [this, receive_loop_fail st w rest c1 hst]
    simp [hst]

theorem receive_reply_first_sentence_witness :
    (status_word [114, 101]).length ≤ 4095 ∧
    receive_reply [delivered (status_word [114, 101]), delivered (param_word ([97], [49])),
        ⟨-1, []⟩, delivered (status_word [100, 111, 110, 101]), delivered []]
      = .returns ([], [delivered (status_word [100, 111, 110, 101]), delivered []]) :=
  ⟨by decide,
   (receive_reply_first_sentence [114, 101] [param_word ([97], [49])]
      [delivered (status_word [100, 111, 110, 101]), delivered []]
      (by decide) (by decide)).2 (-1) [] (by decide)⟩

/-- C10. When `send_command` returns the code `sr.status`: if it is not 0,
`mt_query` returns it and invokes no handler; if it is 0 and `receive_reply`
returns no chain, `mt_query` returns `EPROTO` and invokes no handler; if
`receive_reply` returns a chain, `mt_query` invokes the handler exactly once,
with the connection, that chain and the user data, and returns the code of
the handler. -/
theorem mt_query_result {υ : Type} (c : mt_connection_s) (command : Option (List Nat))
    (args : List (Option (List Nat)))
    (handler : mt_connection_s → List mt_reply_s → υ → World → Exec (Int × World))
    (user_data : υ) (w : World) (sr : SendRes)
    (hsend : send_command command args w.writes = .returns sr) :
    (sr.status ≠ 0 →
      mt_query c command args handler user_data w
        = .returns ⟨sr.status, { w with writes := sr.rest, wire := w.wire ++ sr.wire }, []⟩) ∧
    (∀ rest, sr.status = 0 → receive_reply w.words = .returns ([], rest) →
      mt_query c command args handler user_data w
        = .returns ⟨EPROTO, ⟨sr.rest, w.wire ++ sr.wire, rest⟩, []⟩) ∧
    (∀ r rest ret w3, sr.status = 0 → receive_reply w.words = .returns (r, rest) → r ≠ [] →
      handler c r user_data ⟨sr.rest, w.wire ++ sr.wire, rest⟩ = .returns (ret, w3) →
      mt_query c command args handler user_data w
        = .returns ⟨ret, w3, [(c, r, user_data)]⟩) := by
  refine ⟨?_, ?_, ?_⟩
  · intro h
    simp [mt_query, hsend, h]
  · intro rest h hr
    simp [mt_query, hsend, h, hr]
  · intro r rest ret w3 h hr hne hh
    simp [mt_query, hsend, h, hr, hne, hh]

theorem mt_query_result_witness :
    send_command (some [47, 120]) [] [.accept 100] = .returns ⟨0, [2, 47, 120, 0], []⟩ ∧
    mt_query ⟨3⟩ (some [47, 120]) []
        (fun _ r (u : Int) w => .returns (u + mt_reply_num r, w)) 41
        ⟨[.accept 100], [],
         [delivered (status_word [116, 114, 97, 112]),
          delivered (param_word ([109, 101, 115, 115, 97, 103, 101],
            [98, 97, 100, 32, 99, 111, 109, 109, 97, 110, 100])),
          delivered []]⟩
      = .returns ⟨42, ⟨[], [2, 47, 120, 0], []⟩,
          [(⟨3⟩, [⟨[116, 114, 97, 112], [[109, 101, 115, 115, 97, 103, 101]],
                   [[98, 97, 100, 32, 99, 111, 109, 109, 97, 110, 100]]⟩], 41)]⟩ :=
  ⟨by rfl,
   (mt_query_result ⟨3⟩ (some [47, 120]) []
      (fun _ r (u : Int) w => .returns (u + mt_reply_num r, w)) 41
      ⟨[.accept 100], [],
       [delivered (status_word [116, 114, 97, 112]),
        delivered (param_word ([109, 101, 115, 115, 97, 103, 101],
          [98, 97, 100, 32, 99, 111, 109, 109, 97, 110, 100])),
        delivered []]⟩
      ⟨0, [2, 47, 120, 0], []⟩ (by rfl)).2.2
      [⟨[116, 114, 97, 112], [[109, 101, 115, 115, 97, 103, 101]],
        [[98, 97, 100, 32, 99, 111, 109, 109, 97, 110, 100]]⟩] [] 42 ⟨[], [2, 47, 120, 0], []⟩
      rfl (by rfl) (by decide) (by rfl)⟩

theorem strcmp_eq_zero : ∀ (a b : List Nat), strcmp a b = 0 ↔ strdup a = strdup b := by
  intro a
  induction a with
  | nil =>
    intro b
    cases b with
    | nil => simp [strcmp, strdup]
    | cons y ys =>
      by_cases hy : y = 0
      · subst hy; simp [strcmp, strdup]
      · simp [strcmp, strdup, List.takeWhile_cons, hy]
  | cons x xs ih =>
    intro b
    cases b with
    | nil =>
      by_cases hx : x = 0
      · subst hx; simp [strcmp, strdup]
      · simp [strcmp, strdup, List.takeWhile_cons, hx]
    | cons y ys =>
      by_cases hxy : x = y
      · subst hxy
        by_cases hx : x = 0
        · subst hx; simp [strcmp, strdup]
        · have := ih ys
          unfold strdup at this ⊢
          simp [strcmp, List.takeWhile_cons, hx, this]
      · have hne : (x : Int) - (y : Int) ≠ 0 := by omega
        by_cases hx : x = 0
        · subst hx
          have hy : y ≠ 0 := fun h => hxy h.symm
          simp [strcmp, hxy, strdup, List.takeWhile_cons, hy]
        · by_cases hy : y = 0
          · subst hy
            simp [strcmp, hxy, strdup, List.takeWhile_cons, hx]
          · simp [strcmp, hxy, strdup, List.takeWhile_cons, hx, hy, hne]

theorem param_loop_none (r : mt_reply_s) (key : List Nat) : ∀ (n i : Nat),
    (∀ j, i ≤ j → j < i + n → strcmp (r.keys.getD j []) key ≠ 0) →
    param_loop r key n i = none := by
  intro n
  induction n with
  | zero => intro i _; rfl
  | succ n ih =>
    intro i h
    rw [param_loop, if_neg (h i (Nat.le_refl _) (by omega))]
    exact ih (i + 1) (fun j h1 h2 => h j (by omega) (by omega))

theorem param_loop_first (r : mt_reply_s) (key : List Nat) (m : Nat) : ∀ (n i : Nat),
    i ≤ m → m < i + n → strcmp (r.keys.getD m []) key = 0 →
    (∀ j, i ≤ j → j < m → strcmp (r.keys.getD j []) key ≠ 0) →
    param_loop r key n i = some (r.values.getD m []) := by
  intro n
  induction n with
  | zero => intro i h1 h2; omega
  | succ n ih =>
    intro i h1 h2 hm hbefore
    by_cases him : i = m
    · subst him
      rw [param_loop, if_pos hm]
    · rw [param_loop, if_neg (hbefore i (Nat.le_refl _) (by omega))]
      exact ih (i + 1) (by omega) (by omega) hm (fun j h3 h4 => hbefore j (by omega) h4)

theorem val_by_key_none (r : mt_reply_s) (key : List Nat)
    (h : ∀ k ∈ r.keys, strdup k ≠ strdup key) :
    mt_reply_param_val_by_key (some r) (some key) = none := by
  simp only [mt_reply_param_val_by_key]
  apply param_loop_none
  intro j _ hj
  have hj2 : j < r.keys.length := by omega
  rw [List.getD_eq_getElem _ _ hj2]
  intro h0
  exact h _ (List.getElem_mem _) ((strcmp_eq_zero _ _).mp h0)

/-- C14. For a record whose key and value arrays have the same length:
`mt_reply_param_val_by_key` returns the value at the smallest index whose key
equals the given key (as a C string), and returns `NULL` when no key equals
it. -/
theorem mt_reply_param_val_by_key_first (r : mt_reply_s) (key : List Nat)
    (hwf : r.values.length = r.keys.length) :
    (∀ i, i < r.keys.length → strdup (r.keys.getD i []) = strdup key →
      (∀ j, j < i → strdup (r.keys.getD j []) ≠ strdup key) →
      mt_reply_param_val_by_key (some r) (some key) = r.values[i]?) ∧
    ((∀ k ∈ r.keys, strdup k ≠ strdup key) →
      mt_reply_param_val_by_key (some r) (some key) = none) := by
  constructor
  · intro i hi hk hbefore
    simp only [mt_reply_param_val_by_key]
    rw [param_loop_first r key i r.keys.length 0 (Nat.zero_le _) (by omega)
      ((strcmp_eq_zero _ _).mpr hk)
      (fun j _ hj h0 => hbefore j hj ((strcmp_eq_zero _ _).mp h0))]
    have hi2 : i < r.values.length := by omega
    rw [List.getD_eq_getElem _ _ hi2, List.getElem?_eq_getElem hi2]
  · exact val_by_key_none r key

theorem mt_reply_param_val_by_key_first_witness :
    mt_reply_param_val_by_key (some ⟨[100, 111, 110, 101], [[97], [97]], [[49], [50]]⟩)
      (some [97]) = some [49] :=
  (mt_reply_param_val_by_key_first ⟨[100, 111, 110, 101], [[97], [97]], [[49], [50]]⟩ [97]
    rfl).1 0 (by decide) (by decide) (by intro j hj; omega)

/-- C15, counterexample. For a chain whose record has the status `trap`, and
for one with the status `fatal`, `login2_handler` returns 0. -/
theorem login2_handler_accepts_trap :
    login2_handler ⟨3⟩
        [⟨[116, 114, 97, 112], [[109, 101, 115, 115, 97, 103, 101]], [[98, 97, 100]]⟩]
        none ⟨[], [], []⟩
      = .returns (0, ⟨[], [], []⟩) ∧
    login2_handler ⟨3⟩ [⟨[102, 97, 116, 97, 108], [], []⟩] none ⟨[], [], []⟩
      = .returns (0, ⟨[], [], []⟩) := by
  constructor <;> rfl

/-- C15, amended. `login2_handler` returns 0 for every non-empty reply chain,
whatever the status of its records, and leaves the stream as it was; it
returns a non-zero code (`EINVAL`) only when it is given no chain. -/
theorem login2_handler_result (c : mt_connection_s) (r : List mt_reply_s)
    (user_data : Option mt_login_data_s) (w : World) :
    (r ≠ [] → login2_handler c r user_data w = .returns (0, w)) ∧
    (r = [] → login2_handler c r user_data w = .returns (EINVAL, w)) := by
  constructor
  · intro h; simp [login2_handler, h]
  · intro h; simp [login2_handler, h]

theorem login2_handler_result_witness :
    login2_handler ⟨3⟩ [⟨[116, 114, 97, 112], [], []⟩] none ⟨[], [], []⟩
      = .returns (0, ⟨[], [], []⟩) :=
  (login2_handler_result ⟨3⟩ [⟨[116, 114, 97, 112], [], []⟩] none ⟨[], [], []⟩).1 (by decide)

theorem read_exact_loop_eof : ∀ (fuel : Nat) (got : List Nat) (n : Nat),
    got.length < n → read_exact_loop fuel [] got n = none := by
  intro fuel
  induction fuel with
  | zero => intro got n h; simp [read_exact_loop, h]
  | succ f ih =>
    intro got n h
    rw [read_exact_loop]
    simp only [h, if_true, sys_read]
    simpa using ih got n h

/-- C16 (what the code does instead). On a valid descriptor, when the stream
is at end-of-file before `n` bytes have come (at once, or after fewer than `n`
bytes), `read_exact` is still looping whatever the number of iterations
allowed: `read` returns 0, which the loop adds to `have_bytes` and goes on. -/
theorem read_exact_spins_at_eof (fuel : Nat) (fd : Int) (bs : List Nat) (n : Nat)
    (hfd : 0 ≤ fd) (hn : bs.length < n) :
    read_exact fuel fd [] n = none ∧ read_exact fuel fd [.data bs] n = none := by
  have hfd2 : ¬ fd < 0 := by omega
  have hn0 : n ≠ 0 := by omega
  have hnil : ([] : List Nat).length < n := by simp; omega
  constructor
  · simp only [read_exact, hfd2, hn0, if_false]
    exact read_exact_loop_eof fuel [] n hnil
  · simp only [read_exact, hfd2, hn0, if_false]
    cases fuel with
    | zero => simp [read_exact_loop, hn0]
    | succ f =>
      rw [read_exact_loop]
      have hle : bs.length ≤ n - ([] : List Nat).length := by simp; omega
      simp only [hnil, if_true, sys_read, hle]
      simpa using read_exact_loop_eof f bs n hn

theorem read_exact_spins_at_eof_witness :
    read_exact 1000 3 [] 4 = none ∧ read_exact 1000 3 [.data [1, 2]] 4 = none :=
  read_exact_spins_at_eof 1000 3 [1, 2] 4 (by decide) (by decide)

/-- C17 (what the code does instead). The next byte on the stream is `0x00`.
With a receive buffer that starts with `0x80 0x02`, `read_word` takes the
two-byte form from `buffer[0]`, consumes four bytes of the stream and returns a
word of length 2; with a buffer that starts with `0xC0 0x7F` it consumes three
bytes and returns `ENOMEM`. -/
theorem read_word_zero_byte_misread (char_signed : Bool) :
    read_word char_signed 4 3 [.data [0, 33, 100, 111, 110, 101]]
        (0x80 :: 2 :: List.replicate 4094 0) 4095
      = some ⟨0, 100 :: 111 :: List.replicate 4094 0, 2, [.data [110, 101]]⟩ ∧
    read_word char_signed 4 3 [.data [0, 33, 100, 111, 110, 101]]
        (0xC0 :: 0x7F :: List.replicate 4094 0) 4095
      = some ⟨ENOMEM, 0xC0 :: 0x7F :: List.replicate 4094 0, 4095, [.data [111, 110, 101]]⟩ := by
  cases char_signed <;> exact ⟨rfl, rfl⟩

/-- C18 (what the code does instead). The same stream, `0x05` followed by
`hello`, read into two buffers of the same capacity: with the buffer holding
`!re`, `read_word` returns the word `hello` (length 5, six bytes consumed);
with the buffer starting `0x80 0x00` it returns a word of length 0 after
consuming two bytes. -/
theorem read_word_depends_on_buffer (char_signed : Bool) :
    read_word char_signed 4 3 [.data [5, 104, 101, 108, 108, 111]]
        (33 :: 114 :: 101 :: List.replicate 4093 0) 4095
      = some ⟨0, 104 :: 101 :: 108 :: 108 :: 111 :: List.replicate 4091 0, 5, []⟩ ∧
    read_word char_signed 4 3 [.data [5, 104, 101, 108, 108, 111]]
        (0x80 :: 0 :: 101 :: List.replicate 4093 0) 4095
      = some ⟨0, 0 :: 0 :: 101 :: List.replicate 4093 0, 0, [.data [101, 108, 108, 111]]⟩ := by
  cases char_signed <;> exact ⟨rfl, rfl⟩

/-- C19 (what the code does instead). For the words `=a=1`, empty word, with
no status word before the parameter, the loop calls `reply_add_keyval` with
`tail == NULL`, which dereferences the null pointer: the parse ends in a
fault. -/
theorem receive_reply_parameter_without_record :
    receive_reply [delivered (param_word ([97], [49])), delivered []] = .crash ∧
    receive_loop [delivered (param_word ([97], [49])), delivered []] [] = .crash := by
  constructor <;> rfl

/-- C20 (what the code does instead). For the words `=a=1`, `!done`, empty
word, in which a status word does come before the first empty word,
`receive_reply` returns no chain at all: it faults on the first word. -/
theorem receive_reply_no_chain_after_early_parameter :
    receive_reply [delivered (param_word ([97], [49])),
        delivered (status_word [100, 111, 110, 101]), delivered []] = .crash ∧
    is_status (status_word [100, 111, 110, 101]) = true := by
  constructor <;> rfl

theorem fmt_02x_byte : ∀ v < 256, snprintf 3 (fmt_02x v) = [hex_digit (v / 16), hex_digit (v % 16)] := by
  decide

theorem strtoul16_pair : ∀ a ∈ [48, 49, 50, 51, 52, 53, 54, 55, 56, 57, 97, 98, 99, 100, 101, 102,
      65, 66, 67, 68, 69, 70],
    ∀ b ∈ [48, 49, 50, 51, 52, 53, 54, 55, 56, 57, 97, 98, 99, 100, 101, 102,
      65, 66, 67, 68, 69, 70],
    strtoul16 [a, b, 0] % 256 = 16 * hex_digit_value a + hex_digit_value b := by
  decide

theorem is_hex_char_mem (c : Nat) (h : is_hex_char c = true) :
    c ∈ [48, 49, 50, 51, 52, 53, 54, 55, 56, 57, 97, 98, 99, 100, 101, 102,
      65, 66, 67, 68, 69, 70] := by
  simpa [is_hex_char] using h

theorem is_hex_char_ne_zero (c : Nat) (h : is_hex_char c = true) : c ≠ 0 := by
  intro h0; subst h0; simp [is_hex_char] at h

theorem getD_mid (pre post : List Nat) (a : Nat) :
    (pre ++ a :: post).getD pre.length 0 = a := by
  induction pre with
  | nil => rfl
  | cons p ps ih => simpa using ih

theorem range_flatMap_getD (g : Nat → List Nat) : ∀ (l pre : List Nat) (post : List Nat),
    (List.range' pre.length l.length).flatMap (fun i => g ((pre ++ l ++ post).getD i 0))
      = l.flatMap g := by
  intro l
  induction l with
  | nil => intro pre post; simp
  | cons a l ih =>
    intro pre post
    simp only [List.length_cons, List.range'_succ, List.flatMap_cons]
    have h1 : (pre ++ a :: l ++ post).getD pre.length 0 = a := by
      have := getD_mid pre (l ++ post) a
      simpa using this
    rw [h1]
    have h2 := ih (pre ++ [a]) post
    simp only [List.length_append, List.length_singleton, List.append_assoc,
      List.singleton_append] at h2
    simp only [List.append_assoc, List.cons_append] at h2 ⊢
    rw [h2]

theorem hash_binary_to_hex_eq (bin : List Nat) (hlen : bin.length = 16)
    (hb : ∀ b ∈ bin, b < 256) :
    hash_binary_to_hex bin = hex_encode bin ++ [0] := by
  unfold hash_binary_to_hex hex_encode
  congr 1
  have h := range_flatMap_getD
    (fun b => [(snprintf 3 (fmt_02x (b % 256))).getD 0 0, (snprintf 3 (fmt_02x (b % 256))).getD 1 0])
    bin [] []
  simp only [List.length_nil, List.nil_append, List.append_nil, hlen] at h
  rw [List.range_eq_range', h]
  apply List.flatMap_congr
  intro b hb1
  have hlt := hb b hb1
  rw [Nat.mod_eq_of_lt hlt, fmt_02x_byte b hlt]
  rfl

theorem getD_in_mid (pre l post : List Nat) (i : Nat) (h : i < l.length) :
    (pre ++ l ++ post).getD (pre.length + i) 0 = l.getD i 0 := by
  rw [List.append_assoc, List.getD_append_right _ _ _ _ (by omega)]
  have e : pre.length + i - pre.length = i := by omega
  rw [e, List.getD_append _ _ _ _ h]

theorem range_map_pairs (f : Nat → Nat → Nat) (n : Nat) (l pre post : List Nat) (k : Nat)
    (hl : l.length = 2 * n) (hp : pre.length = 2 * k) :
    (List.range' k n).map (fun i => f ((pre ++ l ++ post).getD (2 * i) 0)
        ((pre ++ l ++ post).getD (2 * i + 1) 0))
      = (List.range' 0 n).map (fun i => f (l.getD (2 * i) 0) (l.getD (2 * i + 1) 0)) := by
  rw [List.range'_eq_map_range, List.range'_eq_map_range]
  simp only [List.map_map]
  apply List.map_congr_left
  intro i hi
  have hi2 : i < n := List.mem_range.mp hi
  simp only [Function.comp, Nat.zero_add]
  have e1 : 2 * (k + i) = pre.length + 2 * i := by omega
  have e2 : pre.length + 2 * i + 1 = pre.length + (2 * i + 1) := by omega
  rw [e1, e2, getD_in_mid pre l post (2 * i) (by omega),
    getD_in_mid pre l post (2 * i + 1) (by omega)]

theorem hex_decode_pairs : ∀ (n : Nat) (l : List Nat), l.length = 2 * n →
    (List.range' 0 n).map (fun i =>
        16 * hex_digit_value (l.getD (2 * i) 0) + hex_digit_value (l.getD (2 * i + 1) 0))
      = hex_decode l := by
  intro n
  induction n with
  | zero =>
    intro l h
    have : l = [] := List.length_eq_zero.mp (by omega)
    subst this; rfl
  | succ n ih =>
    intro l h
    match l, h with
    | a :: b :: rest, h =>
      have hr : rest.length = 2 * n := by simp only [List.length_cons] at h; omega
      rw [List.range'_succ, List.map_cons, hex_decode]
      congr 1
      have := range_map_pairs (fun x y => 16 * hex_digit_value x + hex_digit_value y)
        n rest [a, b] [] 1 hr rfl
      simp only [List.append_nil] at this
      rw [← ih rest hr, ← this]
      rfl

theorem hash_hex_to_binary_eq (ret : List Nat) (hlen : ret.length = 32)
    (hhex : ∀ ch ∈ ret, is_hex_char ch = true) :
    hash_hex_to_binary (ret ++ [0]) = hex_decode ret := by
  rw [← hex_decode_pairs 16 ret hlen]
  unfold hash_hex_to_binary
  rw [List.range_eq_range']
  apply List.map_congr_left
  intro i hi
  have hi2 : i < 16 := by
    have := List.mem_range'_1.mp hi
    omega
  have g1 : (ret ++ [0]).getD (2 * i) 0 = ret.getD (2 * i) 0 :=
    List.getD_append _ _ _ _ (by omega)
  have g2 : (ret ++ [0]).getD (2 * i + 1) 0 = ret.getD (2 * i + 1) 0 :=
    List.getD_append _ _ _ _ (by omega)
  simp only [g1, g2]
  have m1 : ret.getD (2 * i) 0 ∈ ret := by
    rw [List.getD_eq_getElem _ _ (by omega)]; exact List.getElem_mem _
  have m2 : ret.getD (2 * i + 1) 0 ∈ ret := by
    rw [List.getD_eq_getElem _ _ (by omega)]; exact List.getElem_mem _
  exact strtoul16_pair _ (is_hex_char_mem _ (hhex _ m1)) _ (is_hex_char_mem _ (hhex _ m2))


theorem strdup_self (t : List Nat) (h : 0 ∉ t) : strdup t = t := by
  unfold strdup
  rw [List.takeWhile_eq_self_iff]
  intro x hx
  have : x ≠ 0 := fun h0 => h (h0 ▸ hx)
  simpa using this

theorem hex_encode_length (bs : List Nat) : (hex_encode bs).length = 2 * bs.length := by
  unfold hex_encode
  induction bs with
  | nil => rfl
  | cons b bs ih => simp only [List.flatMap_cons, List.length_append, ih, List.length_cons,
      List.length_nil]; omega

theorem hex_encode_no_zero (bs : List Nat) : 0 ∉ hex_encode bs := by
  unfold hex_encode
  intro h
  obtain ⟨b, _, hb⟩ := List.mem_flatMap.mp h
  simp only [List.mem_cons, List.mem_singleton, List.not_mem_nil, or_false, hex_digit] at hb
  rcases hb with hb | hb <;> split_ifs at hb <;> omega

theorem make_password_hash_eq (md5 : List Nat → List Nat) (password ret : List Nat)
    (hmd5 : ∀ x, (md5 x).length = 16 ∧ ∀ b ∈ md5 x, b < 256)
    (hlen : ret.length = 32) (hhex : ∀ ch ∈ ret, is_hex_char ch = true) :
    make_password_hash md5 password (strlen password) (strdup ret ++ [0])
      = hex_encode (md5 (0 :: strdup password ++ hex_decode ret)) ++ [0] := by
  have h0 : 0 ∉ ret := fun h => is_hex_char_ne_zero 0 (hhex 0 h) rfl
  have hb : (hash_hex_to_binary (ret ++ [0])).length = 16 := by
    simp [hash_hex_to_binary]
  unfold make_password_hash
  simp only [strdup_self ret h0, take_strlen]
  rw [List.take_of_length_le (Nat.le_of_eq hb), hash_hex_to_binary_eq ret hlen hhex]
  have hm := hmd5 ([0] ++ strdup password ++ hex_decode ret)
  rw [List.take_of_length_le (Nat.le_of_eq hm.1), hash_binary_to_hex_eq _ hm.1 hm.2]
  rfl

theorem login_params_eq (md5 : List Nat → List Nat) (login_data : mt_login_data_s)
    (ret : List Nat)
    (hmd5 : ∀ x, (md5 x).length = 16 ∧ ∀ b ∈ md5 x, b < 256)
    (hlen : ret.length = 32) (hhex : ∀ ch ∈ ret, is_hex_char ch = true) :
    login_params md5 login_data ret
      = [snprintf 1024 (str_name ++ strdup login_data.username),
         str_response ++ hex_encode (md5 (0 :: strdup login_data.password ++ hex_decode ret))] := by
  unfold login_params
  simp only [make_password_hash_eq md5 login_data.password ret hmd5 hlen hhex]
  rw [strdup_stop _ [] (hex_encode_no_zero _)]
  congr 2
  unfold snprintf
  apply List.take_of_length_le
  simp only [List.length_append, hex_encode_length, (hmd5 _).1]
  decide

theorem strlen_hex (ret : List Nat) (hlen : ret.length = 32)
    (hhex : ∀ ch ∈ ret, is_hex_char ch = true) : strlen ret = 32 := by
  have h0 : 0 ∉ ret := fun h => is_hex_char_ne_zero 0 (hhex 0 h) rfl
  unfold strlen; rw [strdup_self ret h0, hlen]

/-- C11. When the first record of the chain has no parameter `ret`, or the
value found for `ret` is not exactly 32 bytes long, `login_handler` returns
`EPROTO` and leaves the stream as it was: no second query is issued, nothing is
written and no answer of the stream is used. -/
theorem login_handler_rejects_challenge (md5 : List Nat → List Nat) (c : mt_connection_s)
    (r0 : mt_reply_s) (rest : List mt_reply_s) (login_data : mt_login_data_s) (w : World)
    (h : (∀ k ∈ r0.keys, strdup k ≠ strdup str_ret) ∨
         (∃ v, mt_reply_param_val_by_key (some r0) (some str_ret) = some v ∧ strlen v ≠ 32)) :
    login_handler md5 c (r0 :: rest) (some login_data) w = .returns (EPROTO, w) := by
  rcases h with h | ⟨v, hv, hl⟩
  · simp [login_handler, val_by_key_none r0 str_ret h]
  · simp [login_handler, hv, hl]

theorem login_handler_rejects_challenge_witness :
    login_handler (fun _ => List.replicate 16 0) ⟨3⟩
        [⟨[100, 111, 110, 101], [str_ret], [[48, 49]]⟩] (some ⟨[97], [98]⟩)
        ⟨[.accept 4096], [], []⟩
      = .returns (EPROTO, ⟨[.accept 4096], [], []⟩) :=
  login_handler_rejects_challenge (fun _ => List.replicate 16 0) ⟨3⟩
    ⟨[100, 111, 110, 101], [str_ret], [[48, 49]]⟩ [] ⟨[97], [98]⟩ ⟨[.accept 4096], [], []⟩
    (Or.inr ⟨[48, 49], rfl, by decide⟩)

/-- C12. For a digest function `md5` that yields 16 bytes, any password and a
challenge `ret` of 32 hexadecimal characters, the query that `login_handler`
issues has as its second argument word exactly `=response=00` followed by the
lowercase hexadecimal encoding of `md5 ([0] ++ password ++ decoded challenge)`,
32 characters. -/
theorem login_handler_response_word (md5 : List Nat → List Nat) (c : mt_connection_s)
    (r0 : mt_reply_s) (rest : List mt_reply_s) (login_data : mt_login_data_s) (w : World)
    (ret : List Nat)
    (hmd5 : ∀ x, (md5 x).length = 16 ∧ ∀ b ∈ md5 x, b < 256)
    (hret : mt_reply_param_val_by_key (some r0) (some str_ret) = some ret)
    (hlen : ret.length = 32) (hhex : ∀ ch ∈ ret, is_hex_char ch = true) :
    ∃ name_word,
      login_handler md5 c (r0 :: rest) (some login_data) w
        = query_return (mt_query c (some str_login)
            [some name_word,
             some (str_response ++
               hex_encode (md5 (0 :: strdup login_data.password ++ hex_decode ret)))]
            login2_handler none w) := by
  refine ⟨snprintf 1024 (str_name ++ strdup login_data.username), ?_⟩
  have hs : strlen ret = 32 := strlen_hex ret hlen hhex
  simp only [login_handler, hret, hs, ne_eq, not_true, if_false,
    login_params_eq md5 login_data ret hmd5 hlen hhex, List.map_cons, List.map_nil]

/-- C13, amended. For a username of at most 1017 bytes and a challenge of 32
hexadecimal characters, the query that `login_handler` issues has the command
`/login` and exactly two argument words, in this order: `=name=` followed by
the complete username, and `=response=00` followed by the hexadecimal
digest. -/
theorem login_handler_sentence (md5 : List Nat → List Nat) (c : mt_connection_s)
    (r0 : mt_reply_s) (rest : List mt_reply_s) (login_data : mt_login_data_s) (w : World)
    (ret : List Nat)
    (hmd5 : ∀ x, (md5 x).length = 16 ∧ ∀ b ∈ md5 x, b < 256)
    (hret : mt_reply_param_val_by_key (some r0) (some str_ret) = some ret)
    (hlen : ret.length = 32) (hhex : ∀ ch ∈ ret, is_hex_char ch = true)
    (huser : strlen login_data.username ≤ 1017) :
    login_handler md5 c (r0 :: rest) (some login_data) w
      = query_return (mt_query c (some str_login)
          [some (str_name ++ strdup login_data.username),
           some (str_response ++
             hex_encode (md5 (0 :: strdup login_data.password ++ hex_decode ret)))]
          login2_handler none w) := by
  have hs : strlen ret = 32 := strlen_hex ret hlen hhex
  have hn : snprintf 1024 (str_name ++ strdup login_data.username)
      = str_name ++ strdup login_data.username := by
    unfold snprintf
    apply List.take_of_length_le
    have : (strdup login_data.username).length = strlen login_data.username := rfl
    simp only [List.length_append, this, str_name, List.length_cons, List.length_nil]
    omega
  simp only [login_handler, hret, hs, ne_eq, not_true, if_false,
    login_params_eq md5 login_data ret hmd5 hlen hhex, List.map_cons, List.map_nil, hn]

theorem stand_in_digest_bytes (x : List Nat) :
    (stand_in_digest x).length = 16 ∧ ∀ b ∈ stand_in_digest x, b < 256 := by
  unfold stand_in_digest
  constructor
  · simp
  · intro b hb
    obtain ⟨a, _, rfl⟩ := List.mem_map.mp hb
    exact Nat.mod_lt _ (by decide)

theorem login_handler_response_word_witness :
    (∃ name_word,
      login_handler stand_in_digest ⟨3⟩
          [⟨[100, 111, 110, 101], [str_ret], [example_challenge]⟩]
          (some ⟨[97, 100, 109, 105, 110], [116, 101, 115, 116]⟩)
          ⟨[.accept 4096], [], [delivered (status_word [100, 111, 110, 101]), delivered []]⟩
        = query_return (mt_query ⟨3⟩ (some str_login)
            [some name_word,
             some (str_response ++ hex_encode (stand_in_digest
               (0 :: strdup [116, 101, 115, 116] ++ hex_decode example_challenge)))]
            login2_handler none
            ⟨[.accept 4096], [], [delivered (status_word [100, 111, 110, 101]), delivered []]⟩)) ∧
    hex_decode example_challenge
      = [0x00, 0x11, 0x22, 0x33, 0x44, 0x55, 0x66, 0x77,
         0x88, 0x99, 0xaa, 0xbb, 0xcc, 0xdd, 0xee, 0xff] ∧
    (login_params stand_in_digest ⟨[97, 100, 109, 105, 110], [116, 101, 115, 116]⟩
        example_challenge).getD 1 []
      = str_response ++ hex_encode
          [0x00, 116, 101, 115, 116, 0x00, 0x11, 0x22, 0x33, 0x44, 0x55, 0x66, 0x77,
           0x88, 0x99, 0xaa] :=
  ⟨login_handler_response_word stand_in_digest ⟨3⟩
      ⟨[100, 111, 110, 101], [str_ret], [example_challenge]⟩ []
      ⟨[97, 100, 109, 105, 110], [116, 101, 115, 116]⟩
      ⟨[.accept 4096], [], [delivered (status_word [100, 111, 110, 101]), delivered []]⟩
      example_challenge stand_in_digest_bytes rfl rfl (by decide),
   by rfl, by rfl⟩

theorem login_handler_sentence_witness :
    login_handler stand_in_digest ⟨3⟩
        [⟨[100, 111, 110, 101], [str_ret], [example_challenge]⟩]
        (some ⟨[97, 100, 109, 105, 110], [116, 101, 115, 116]⟩)
        ⟨[.accept 4096], [], [delivered (status_word [100, 111, 110, 101]), delivered []]⟩
      = query_return (mt_query ⟨3⟩ (some str_login)
          [some (str_name ++ strdup [97, 100, 109, 105, 110]),
           some (str_response ++ hex_encode (stand_in_digest
             (0 :: strdup [116, 101, 115, 116] ++ hex_decode example_challenge)))]
          login2_handler none
          ⟨[.accept 4096], [], [delivered (status_word [100, 111, 110, 101]), delivered []]⟩) :=
  login_handler_sentence stand_in_digest ⟨3⟩
    ⟨[100, 111, 110, 101], [str_ret], [example_challenge]⟩ []
    ⟨[97, 100, 109, 105, 110], [116, 101, 115, 116]⟩
    ⟨[.accept 4096], [], [delivered (status_word [100, 111, 110, 101]), delivered []]⟩
    example_challenge stand_in_digest_bytes rfl rfl (by decide) (by decide)

/-- C13, counterexample. For a username of 1018 bytes the first argument word
of the query is `=name=` followed by only the first 1017 bytes of the username:
`snprintf` cuts the word to the 1023 bytes that fit `param_name`. -/
theorem login_handler_truncates_username :
    strlen (List.replicate 1018 97) = 1018 ∧
    login_handler stand_in_digest ⟨3⟩
        [⟨[100, 111, 110, 101], [str_ret], [example_challenge]⟩]
        (some ⟨List.replicate 1018 97, [116, 101, 115, 116]⟩)
        ⟨[.accept 4096], [], [delivered (status_word [100, 111, 110, 101]), delivered []]⟩
      = query_return (mt_query ⟨3⟩ (some str_login)
          [some (str_name ++ List.replicate 1017 97),
           some (str_response ++ hex_encode (stand_in_digest
             (0 :: strdup [116, 101, 115, 116] ++ hex_decode example_challenge)))]
          login2_handler none
          ⟨[.accept 4096], [], [delivered (status_word [100, 111, 110, 101]), delivered []]⟩) ∧
    str_name ++ List.replicate 1017 97 ≠ str_name ++ List.replicate 1018 97 := by
  refine ⟨by rfl, ?_, ?_⟩
  · have hp := login_params_eq stand_in_digest ⟨List.replicate 1018 97, [116, 101, 115, 116]⟩
      example_challenge stand_in_digest_bytes rfl (by decide)
    have hn : snprintf 1024 (str_name ++ strdup (List.replicate 1018 97))
        = str_name ++ List.replicate 1017 97 := by rfl
    have hret : mt_reply_param_val_by_key
        (some ⟨[100, 111, 110, 101], [str_ret], [example_challenge]⟩) (some str_ret)
        = some example_challenge := rfl
    have hs : strlen example_challenge = 32 := rfl
    simp only [hn] at hp
    simp only [login_handler, hret, hs, ne_eq, not_true, if_false, hp, List.map_cons,
      List.map_nil]
  · intro h
    have := congrArg List.length h
    simp at this

theorem read_exact_error_returns (fuel : Nat) (fd : Int) (e : Int) (rest : List ReadEvent)
    (n : Nat) (hfd : 0 ≤ fd) (hn : 0 < n) (he : e ≠ EAGAIN) :
    read_exact (fuel + 1) fd (.fail e :: rest) n = some ⟨-1, [], rest⟩ := by
  have hfd2 : ¬ fd < 0 := by omega
  have hn0 : n ≠ 0 := by omega
  simp only [read_exact, hfd2, hn0, if_false]
  rw [read_exact_loop]
  simp [sys_read, hn, he]

theorem read_exact_loop_delivers : ∀ (s : List ReadEvent) (fuel : Nat) (got : List Nat) (n : Nat),
    (∀ e, ReadEvent.fail e ∈ s → e = EAGAIN) →
    got.length ≤ n → n ≤ got.length + (stream_bytes s).length → s.length ≤ fuel →
    ∃ rest, read_exact_loop fuel s got n
      = some ⟨0, got ++ (stream_bytes s).take (n - got.length), rest⟩ := by
  intro s
  induction s with
  | nil =>
    intro fuel got n _ h1 h2 _
    simp only [stream_bytes, List.length_nil, Nat.add_zero] at h2
    have hlt : ¬ got.length < n := by omega
    cases fuel with
    | zero => exact ⟨[], by simp [read_exact_loop, hlt, stream_bytes]⟩
    | succ f => exact ⟨[], by rw [read_exact_loop]; simp [hlt, stream_bytes]⟩
  | cons ev s ih =>
    intro fuel got n hok h1 h2 hf
    have hok1 : ∀ e, ReadEvent.fail e ∈ s → e = EAGAIN :=
      fun e he => hok e (List.mem_cons_of_mem _ he)
    by_cases hlt : got.length < n
    · cases fuel with
      | zero => simp at hf
      | succ f =>
        have hf1 : s.length ≤ f := by simpa using hf
        cases ev with
        | data bs =>
          simp only [stream_bytes, List.length_append] at h2
          rw [read_exact_loop]
          simp only [hlt, if_true, sys_read]
          by_cases hb : bs.length ≤ n - got.length
          · have hb1 : got.length + bs.length ≤ n := by omega
            have hneg : ¬ ((bs.length : Int) < 0) := by
              have := Int.natCast_nonneg bs.length
              omega
            simp only [hb, if_true, hneg, if_false]
            obtain ⟨rest, hr⟩ := ih f (got ++ bs) n hok1
              (by simp only [List.length_append]; exact hb1)
              (by simp only [List.length_append]; omega) hf1
            refine ⟨rest, ?_⟩
            rw [hr]
            simp only [stream_bytes, List.length_append, List.append_assoc]
            congr 2
            rw [List.take_append_eq_append_take, List.take_of_length_le hb]
            have e : n - (got.length + bs.length) = n - got.length - bs.length := by omega
            rw [e]
          · have hmin : min (n - got.length) bs.length = n - got.length :=
              Nat.min_eq_left (by omega)
            have hneg : ¬ (((n - got.length : Nat) : Int) < 0) := by
              have := Int.natCast_nonneg (n - got.length)
              omega
            simp only [hb, if_false, hneg]
            have hfull : ¬ (got ++ bs.take (n - got.length)).length < n := by
              rw [List.length_append, List.length_take, hmin]; omega
            refine ⟨.data (bs.drop (n - got.length)) :: s, ?_⟩
            have hres : ∀ g : Nat, read_exact_loop g (.data (bs.drop (n - got.length)) :: s)
                (got ++ bs.take (n - got.length)) n
                = some ⟨0, got ++ bs.take (n - got.length),
                    .data (bs.drop (n - got.length)) :: s⟩ := by
              intro g
              cases g with
              | zero => rw [read_exact_loop, if_neg hfull]
              | succ g => rw [read_exact_loop, if_neg hfull]
            rw [hres]
            simp only [stream_bytes]
            rw [List.take_append_of_le_length (by omega)]
        | fail e =>
          have he : e = EAGAIN := hok e (List.mem_cons_self _ _)
          simp only [stream_bytes] at h2
          rw [read_exact_loop]
          simp only [hlt, if_true, sys_read, he]
          obtain ⟨rest, hr⟩ := ih f got n hok1 h1 h2 hf1
          refine ⟨rest, ?_⟩
          simpa [stream_bytes] using hr
    · have hz : n - got.length = 0 := by omega
      refine ⟨ev :: s, ?_⟩
      cases fuel with
      | zero => simp [read_exact_loop, hlt, hz]
      | succ f => rw [read_exact_loop]; simp [hlt, hz]

theorem read_exact_delivers (fuel : Nat) (fd : Int) (s : List ReadEvent) (n : Nat)
    (hfd : 0 ≤ fd) (hok : ∀ e, ReadEvent.fail e ∈ s → e = EAGAIN)
    (hn : n ≤ (stream_bytes s).length) (hf : s.length ≤ fuel) :
    ∃ rest, read_exact fuel fd s n = some ⟨0, (stream_bytes s).take n, rest⟩ := by
  have hfd2 : ¬ fd < 0 := by omega
  by_cases hn0 : n = 0
  · subst hn0
    exact ⟨s, by simp [read_exact, hfd2]⟩
  · simp only [read_exact, hfd2, hn0, if_false]
    obtain ⟨rest, hr⟩ := read_exact_loop_delivers s fuel [] n hok (by simp) (by simpa using hn) hf
    exact ⟨rest, by simpa using hr⟩

end Librouteros
